import Mathlib

/-!
# Student record store (`src/server.js`)

A shallow embedding of the five Express route handlers of `src/server.js`
(lines 6-43) together with the fragment of the JavaScript semantics they rely
on: object spread, property lookup, the loose comparison `==` between a stored
`id` and the path parameter (a string), `parseInt`, and `Array.prototype.find`,
`findIndex` and `filter`.

Modelling conventions.

* A request body is a decoded JSON object; a record is such an object too.  An
  object is the list of its own properties in insertion order.  The place an
  engine gives to integer-like keys when it enumerates an object is not
  tracked; what is stated about a record is stated through property lookup.
* A number stored in a record is an integer-valued double, `NaN` or an
  infinity; numbers with a fractional part are not part of the model.  A
  string converted to a number (`==`, `parseInt`) is rounded to the nearest
  double, ties to even, with gradual underflow and overflow to infinity.  For
  literals of more than 20 significant digits the language lets an engine
  round in two steps; the model rounds the exact value once, as engines do.
  `idCounter` is a natural number: `++` is exact below `2 ^ 53`.
* A comparison may throw a `TypeError` (an object whose own `toString` property
  is not callable cannot be converted to a primitive).  A handler that throws
  leaves the store as it was and the framework answers with status 500.
-/

namespace StudentApi

/-! ## Values -/

/-- JavaScript values that can occur in a record: decoded JSON, plus `NaN` and
the infinities. -/
inductive JVal where
  | null
  | bool (b : Bool)
  | num (n : Int)
  | nan
  | inf (neg : Bool)
  | str (s : String)
  | arr (xs : List JVal)
  | obj (kvs : List (String × JVal))

/-- An object: its own properties, in insertion order. -/
abbrev JObj := List (String × JVal)

/-- Exceptions a handler can raise. -/
inductive JSError where
  | typeError
deriving DecidableEq, Repr

/-- Property read `o[k]`; `none` is `undefined`. -/
def getProp : JObj → String → Option JVal
  | [], _ => none
  | (k', v) :: t, k => if k' = k then some v else getProp t k

/-- Own property names of an object. -/
def keys (o : JObj) : List String := o.map Prod.fst

/-- Property definition `o[k] = v`: an existing property keeps its position, a
new one is added at the end. -/
def setProp : JObj → String → JVal → JObj
  | [], k, v => [(k, v)]
  | (k', v') :: t, k, v => if k' = k then (k, v) :: t else (k', v') :: setProp t k v

/-- Object spread `{ ...target, ...src }`: the properties of `src` are
defined on `target` one after the other. -/
def spread (target src : JObj) : JObj :=
  src.foldl (fun acc kv => setProp acc kv.1 kv.2) target

/-! ## Strings and numbers -/

/-- White space and line terminators skipped by `StringToNumber` and `parseInt`. -/
def isStrWhiteSpace (c : Char) : Bool :=
  let n := c.toNat
  n == 0x09 || n == 0x0A || n == 0x0B || n == 0x0C || n == 0x0D || n == 0x20 ||
  n == 0xA0 || n == 0x1680 || (0x2000 ≤ n && n ≤ 0x200A) || n == 0x2028 ||
  n == 0x2029 || n == 0x202F || n == 0x205F || n == 0x3000 || n == 0xFEFF

def trimStart (cs : List Char) : List Char := cs.dropWhile isStrWhiteSpace

def trimEnd (cs : List Char) : List Char := (cs.reverse.dropWhile isStrWhiteSpace).reverse

/-- Value of `c` as a digit of the given radix, if it is one. -/
def radixDigit (radix : Nat) (c : Char) : Option Nat :=
  let n := c.toNat
  let v : Option Nat :=
    if 48 ≤ n ∧ n ≤ 57 then some (n - 48)
    else if 97 ≤ n ∧ n ≤ 122 then some (n - 87)
    else if 65 ≤ n ∧ n ≤ 90 then some (n - 55)
    else none
  match v with
  | some d => if d < radix then some d else none
  | none => none

/-- Longest prefix of digits of the given radix, and what follows it. -/
def spanDigits (radix : Nat) : List Char → List Nat × List Char
  | [] => ([], [])
  | c :: t =>
    match radixDigit radix c with
    | some d => let r := spanDigits radix t; (d :: r.1, r.2)
    | none => ([], c :: t)

/-- Mathematical value of a digit sequence. -/
def digitsValue (radix : Nat) (ds : List Nat) : Nat :=
  ds.foldl (fun acc d => acc * radix + d) 0

/-- A string read as a numeric literal: `NaN`, an infinity, or the exact value
`m * 10 ^ e` of the literal, not yet rounded to a double. -/
inductive StrNum where
  | nan
  | inf (neg : Bool)
  | fin (m : Int) (e : Int)
deriving DecidableEq, Repr

def StrNum.neg : StrNum → StrNum
  | .nan => .nan
  | .inf b => .inf (!b)
  | .fin m e => .fin (-m) e

/-- The quotient `a / b` rounded to the nearest integer, ties to even. -/
def roundHalfEven (a b : Nat) : Nat :=
  let q := a / b
  let r := a % b
  if 2 * r < b then q
  else if b < 2 * r then q + 1
  else if q % 2 = 0 then q
  else q + 1

/-- Number of binary digits of `n`, counted with `fuel` halvings. -/
def bitLength : Nat → Nat → Nat → Nat
  | 0, _, acc => acc
  | fuel + 1, n, acc => if n = 0 then acc else bitLength fuel (n / 2) (acc + 1)

/-- Number of binary digits of `n` (`0` for `0`). -/
def bits (n : Nat) : Nat := bitLength n n 0

/-- Binary exponent of the last place of the double nearest to `a / b`, for
positive `a` and `b`: `⌊log₂ (a / b)⌋ - 52`, and `-1074` in the subnormal range. -/
def ulpExponent (a b : Nat) : Int :=
  let l : Int := (bits a : Int) - (bits b : Int)
  let reached : Bool :=
    if 0 ≤ l then decide (b * 2 ^ l.toNat ≤ a) else decide (b ≤ a * 2 ^ (-l).toNat)
  let fl : Int := if reached then l else l - 1
  max (fl - 52) (-1074)

/-- A Number value: `NaN`, an infinity, or the finite double `± m * 2 ^ e`. -/
inductive Double where
  | nan
  | inf (neg : Bool)
  | fin (neg : Bool) (m : Nat) (e : Int)
deriving DecidableEq, Repr

/-- The Number value for the rational `± a / b`: the nearest double, ties to
even; values of magnitude `2 ^ 1024 - 2 ^ 970` or more become an infinity. -/
def roundToDouble (neg : Bool) (a b : Nat) : Double :=
  if a = 0 then .fin neg 0 0
  else
    let e := ulpExponent a b
    let m :=
      if 0 ≤ e then roundHalfEven a (b * 2 ^ e.toNat)
      else roundHalfEven (a * 2 ^ (-e).toNat) b
    if 971 < e ∨ (e = 971 ∧ 2 ^ 53 ≤ m) then .inf neg else .fin neg m e

/-- The Number value of a converted string. -/
def StrNum.toDouble : StrNum → Double
  | .nan => .nan
  | .inf neg => .inf neg
  | .fin m e =>
    if 0 ≤ e then roundToDouble (decide (m < 0)) (m.natAbs * 10 ^ e.toNat) 1
    else roundToDouble (decide (m < 0)) m.natAbs (10 ^ (-e).toNat)

/-- Number equality `d === n` of a double with an integer. -/
def Double.eqInt : Double → Int → Bool
  | .fin neg m e, n =>
    let s : Int := if neg then -(m : Int) else (m : Int)
    if 0 ≤ e then decide (s * 2 ^ e.toNat = n) else decide (s = n * 2 ^ (-e).toNat)
  | _, _ => false

/-- Number equality `d === ±Infinity`. -/
def Double.eqInf : Double → Bool → Bool
  | .inf b, neg => b == neg
  | _, _ => false

/-- Number equality `x === n` between a converted string and an integer. -/
def StrNum.eqInt (s : StrNum) (n : Int) : Bool := s.toDouble.eqInt n

/-- The value of an integer-valued double as a record value. -/
def Double.toNumber : Double → JVal
  | .nan => .nan
  | .inf neg => .inf neg
  | .fin neg m e =>
    let v : Int := if 0 ≤ e then (m * 2 ^ e.toNat : Nat) else (m / 2 ^ (-e).toNat : Nat)
    .num (if neg then -v else v)

/-- The double nearest to the natural number `v`, if it is finite. -/
def nearestDouble (v : Nat) : Option Nat :=
  match roundToDouble false v 1 with
  | .fin _ m e => some (if 0 ≤ e then m * 2 ^ e.toNat else m / 2 ^ (-e).toNat)
  | _ => none

/-- Search of `Number::toString`: the decimal with the fewest significant
digits that converts back to `v`, tried with 1, 2, ... digits; among two with
the same number of digits the closer one, then the even one. -/
def shortestFrom (v len : Nat) : List Nat → Nat
  | [] => v
  | k :: ks =>
    let p := 10 ^ (len - k)
    let lo := v / p * p
    let hi := lo + p
    let okLo := nearestDouble lo == some v
    let okHi := nearestDouble hi == some v
    if okLo && okHi then
      if v - lo < hi - v then lo
      else if hi - v < v - lo then hi
      else if (v / p) % 2 = 0 then lo
      else hi
    else if okLo then lo
    else if okHi then hi
    else shortestFrom v len ks

/-- The shortest decimal that converts back to the double `v`. -/
def shortestDecimal (v : Nat) : Nat :=
  let len := (Nat.toDigits 10 v).length
  shortestFrom v len ((List.range len).map (· + 1))

/-- Conversion `Number::toString` of an integer-valued double: plain digits up
to 21 digits, exponent notation beyond. -/
def numToString (i : Int) : String :=
  let c := shortestDecimal i.natAbs
  let ds := Nat.toDigits 10 c
  let body : List Char :=
    if ds.length ≤ 21 then ds
    else
      match (ds.reverse.dropWhile (fun d => d == '0')).reverse with
      | [] => ds
      | d :: rest =>
        (d :: (if rest.isEmpty then [] else '.' :: rest)) ++ ['e', '+']
          ++ Nat.toDigits 10 (ds.length - 1)
  String.mk ((if i < 0 then ['-'] else []) ++ body)

/-- `0x`, `0o` and `0b` literals: one or more digits and nothing else. -/
def parseNonDecimal (radix : Nat) (cs : List Char) : StrNum :=
  match spanDigits radix cs with
  | (d :: ds, []) => .fin (digitsValue radix (d :: ds)) 0
  | _ => .nan

/-- Optional exponent part, which has to reach the end of the literal. -/
def parseExponent : List Char → Option Int
  | [] => some 0
  | c :: rest =>
    if c = 'e' ∨ c = 'E' then
      let signed : Bool × List Char :=
        match rest with
        | '+' :: r => (false, r)
        | '-' :: r => (true, r)
        | r => (false, r)
      match spanDigits 10 signed.2 with
      | (d :: ds, []) =>
        let v : Int := digitsValue 10 (d :: ds)
        some (if signed.1 then -v else v)
      | _ => none
    else none

/-- `StrUnsignedDecimalLiteral`. -/
def parseUnsignedDecimal (cs : List Char) : StrNum :=
  if cs = ['I', 'n', 'f', 'i', 'n', 'i', 't', 'y'] then .inf false
  else
    let ip := spanDigits 10 cs
    match ip.2 with
    | '.' :: r2 =>
      let fp := spanDigits 10 r2
      if ip.1.isEmpty ∧ fp.1.isEmpty then .nan
      else
        match parseExponent fp.2 with
        | some e => .fin (digitsValue 10 (ip.1 ++ fp.1)) (e - fp.1.length)
        | none => .nan
    | r1 =>
      if ip.1.isEmpty then .nan
      else
        match parseExponent r1 with
        | some e => .fin (digitsValue 10 ip.1) e
        | none => .nan

/-- The literal `ToNumber` reads in a string; `StrNum.toDouble` rounds it to the
Number value. -/
def StringToNumber (s : String) : StrNum :=
  match trimEnd (trimStart s.toList) with
  | [] => .fin 0 0
  | '0' :: 'x' :: r => parseNonDecimal 16 r
  | '0' :: 'X' :: r => parseNonDecimal 16 r
  | '0' :: 'o' :: r => parseNonDecimal 8 r
  | '0' :: 'O' :: r => parseNonDecimal 8 r
  | '0' :: 'b' :: r => parseNonDecimal 2 r
  | '0' :: 'B' :: r => parseNonDecimal 2 r
  | '+' :: r => parseUnsignedDecimal r
  | '-' :: r => (parseUnsignedDecimal r).neg
  | cs => parseUnsignedDecimal cs

/-- `parseInt(s)` with no radix argument. -/
def parseInt (s : String) : JVal :=
  let signed : Bool × List Char :=
    match trimStart s.toList with
    | '-' :: r => (true, r)
    | '+' :: r => (false, r)
    | r => (false, r)
  let based : Nat × List Char :=
    match signed.2 with
    | '0' :: 'x' :: r => (16, r)
    | '0' :: 'X' :: r => (16, r)
    | r => (10, r)
  match (spanDigits based.1 based.2).1 with
  | [] => .nan
  | d :: ds => (roundToDouble signed.1 (digitsValue based.1 (d :: ds)) 1).toNumber

/-- Separator handling of `Array.prototype.join`. -/
def sepCat (a : Except JSError String) (rest : List JVal) (b : Except JSError String) :
    Except JSError String :=
  match a, rest, b with
  | .ok x, [], _ => .ok x
  | .ok x, _ :: _, .ok y => .ok (x ++ "," ++ y)
  | _, _, _ => .error .typeError

mutual
/-- Conversion `ToString(v)`; with `elem` set, the conversion `join` applies to
an array element (`null` becomes the empty string). -/
def toStr (elem : Bool) : JVal → Except JSError String
  | .null => .ok (if elem then "" else "null")
  | .bool b => .ok (if b then "true" else "false")
  | .num n => .ok (numToString n)
  | .nan => .ok "NaN"
  | .inf neg => .ok (if neg then "-Infinity" else "Infinity")
  | .str s => .ok s
  | .arr xs => joinElems xs
  | .obj kvs =>
    if kvs.any (fun kv => kv.1 = "toString") then .error .typeError
    else .ok "[object Object]"
/-- Conversion `xs.join(",")`. -/
def joinElems : List JVal → Except JSError String
  | [] => .ok ""
  | x :: t => sepCat (toStr true x) t (joinElems t)
end

/-- Loose comparison `v == x` of a property value with a string. -/
def looseEq (v : Option JVal) (x : String) : Except JSError Bool :=
  match v with
  | none => .ok false
  | some .null => .ok false
  | some (.bool b) => .ok ((StringToNumber x).eqInt (if b then 1 else 0))
  | some (.num n) => .ok ((StringToNumber x).eqInt n)
  | some .nan => .ok false
  | some (.inf neg) => .ok ((StringToNumber x).toDouble.eqInf neg)
  | some (.str s) => .ok (decide (s = x))
  | some (.arr xs) =>
    match toStr false (.arr xs) with
    | .ok p => .ok (decide (p = x))
    | .error e => .error e
  | some (.obj kvs) =>
    match toStr false (.obj kvs) with
    | .ok p => .ok (decide (p = x))
    | .error e => .error e

/-- Values that are not objects: `==` never has to convert them to a primitive. -/
def JVal.isPrimitive : JVal → Bool
  | .arr _ => false
  | .obj _ => false
  | _ => true

/-! ## Array methods -/

/-- First element satisfying the callback. -/
def find (p : JObj → Except JSError Bool) : List JObj → Except JSError (Option JObj)
  | [] => .ok none
  | r :: t =>
    match p r with
    | .error e => .error e
    | .ok true => .ok (some r)
    | .ok false => find p t

/-- Index of the first element satisfying the callback; `none` stands for `-1`. -/
def findIndex (p : JObj → Except JSError Bool) : List JObj → Except JSError (Option Nat)
  | [] => .ok none
  | r :: t =>
    match p r with
    | .error e => .error e
    | .ok true => .ok (some 0)
    | .ok false =>
      match findIndex p t with
      | .error e => .error e
      | .ok none => .ok none
      | .ok (some i) => .ok (some (i + 1))

/-- Elements satisfying the callback, in order. -/
def filter (p : JObj → Except JSError Bool) : List JObj → Except JSError (List JObj)
  | [] => .ok []
  | r :: t =>
    match p r with
    | .error e => .error e
    | .ok b =>
      match filter p t with
      | .error e => .error e
      | .ok l => .ok (if b then r :: l else l)

/-! ## Store and handlers -/

/-- Module state: `students` and `idCounter`. -/
structure Store where
  students : List JObj
  idCounter : Nat

/-- State at start-up: `students = []`, `idCounter = 1`. -/
def initialStore : Store := { students := [], idCounter := 1 }

/-- What a handler sends. -/
inductive Response where
  | json (status : Nat) (body : JVal)
  | send (status : Nat) (text : String)
  | sendStatus (status : Nat)
  | uncaught (e : JSError)

/-- Status code of a response. -/
def Response.status : Response → Nat
  | .json c _ => c
  | .send c _ => c
  | .sendStatus c => c
  | .uncaught _ => 500

/-- Callback `s => s.id == req.params.id`. -/
def matchesId (x : String) (s : JObj) : Except JSError Bool :=
  looseEq (getProp s "id") x

/-- Callback `s => s.id != req.params.id`. -/
def differsId (x : String) (s : JObj) : Except JSError Bool :=
  match looseEq (getProp s "id") x with
  | .ok b => .ok (!b)
  | .error e => .error e

/-- Handler `app.post('/students')`. -/
def postStudents (st : Store) (body : JObj) : Store × Response :=
  let student := spread [("id", .num st.idCounter)] body
  ({ students := st.students ++ [student], idCounter := st.idCounter + 1 },
    .json 201 (.obj student))

/-- Handler `app.get('/students')`. -/
def getStudents (st : Store) : Store × Response :=
  (st, .json 200 (.arr (st.students.map JVal.obj)))

/-- Handler `app.get('/students/:id')`. -/
def getStudent (st : Store) (x : String) : Store × Response :=
  match find (matchesId x) st.students with
  | .error e => (st, .uncaught e)
  | .ok (some student) => (st, .json 200 (.obj student))
  | .ok none => (st, .send 404 "Not Found")

/-- Handler `app.put('/students/:id')`. -/
def putStudent (st : Store) (x : String) (body : JObj) : Store × Response :=
  match findIndex (matchesId x) st.students with
  | .error e => (st, .uncaught e)
  | .ok (some index) =>
    let student := spread [("id", parseInt x)] body
    ({ st with students := st.students.set index student }, .json 200 (.obj student))
  | .ok none => (st, .send 404 "Not Found")

/-- Handler `app.delete('/students/:id')`. -/
def deleteStudent (st : Store) (x : String) : Store × Response :=
  match filter (differsId x) st.students with
  | .error e => (st, .uncaught e)
  | .ok kept => ({ st with students := kept }, .sendStatus 204)

/-- A request to one of the five routes. -/
inductive Request where
  | post (body : JObj)
  | getAll
  | getOne (x : String)
  | put (x : String) (body : JObj)
  | delete (x : String)

/-- Dispatch of a request to its handler. -/
def handle (st : Store) : Request → Store × Response
  | .post body => postStudents st body
  | .getAll => getStudents st
  | .getOne x => getStudent st x
  | .put x body => putStudent st x body
  | .delete x => deleteStudent st x

/-- Store after a sequence of requests. -/
def run (st : Store) : List Request → Store
  | [] => st
  | r :: rs => run (handle st r).1 rs

/-- Responses to a sequence of requests, in order. -/
def responses (st : Store) : List Request → List Response
  | [] => []
  | r :: rs => (handle st r).2 :: responses (handle st r).1 rs

/-- States the server can be in after start-up. -/
def Reachable (st : Store) : Prop := ∃ rs, run initialStore rs = st

/-- Values of the `id` property of the stored records, in order. -/
def ids (st : Store) : List (Option JVal) := st.students.map (fun s => getProp s "id")

/-- The `id` of the record a response carries. -/
def Response.recordId : Response → Option JVal
  | .json _ (.obj o) => getProp o "id"
  | _ => none

/-! ## Auxiliary notions used by the statements -/

/-- The comparison `s.id == x` completes and yields `true`. -/
def isMatch (x : String) (s : JObj) : Bool :=
  match matchesId x s with
  | .ok true => true
  | _ => false

/-- A string of one or more decimal digits. -/
def isDecimalNumeral (x : String) : Bool :=
  !x.toList.isEmpty && x.toList.all (fun c => decide (48 ≤ c.toNat ∧ c.toNat ≤ 57))

/-- A decimal numeral without superfluous leading zero. -/
def isCanonicalNumeral (x : String) : Bool :=
  isDecimalNumeral x &&
    (match x.toList with
     | '0' :: _ :: _ => false
     | _ => true)

/-- An identifier that does not start like a number: its first character is
neither white space, nor a digit, nor a sign, nor a dot. -/
def startsNonNumeric (x : String) : Bool :=
  match x.toList with
  | [] => false
  | c :: _ =>
    !(isStrWhiteSpace c || decide (48 ≤ c.toNat ∧ c.toNat ≤ 57)
      || decide (c = '+') || decide (c = '-') || decide (c = '.'))

/-- The number a string of decimal digits stands for, read digit by digit. -/
def numeralValue (x : String) : Nat :=
  x.toList.foldl (fun acc c => 10 * acc + (c.toNat - 48)) 0

/-- Requests of a well-behaved client: no body carries an `id` key and update
identifiers are canonical decimal numerals. -/
def wellFormed : Request → Bool
  | .post body => (getProp body "id").isNone
  | .put x body => (getProp body "id").isNone && isCanonicalNumeral x
  | _ => true

/-- Counter values drawn by the create requests of a sequence, in call order. -/
def drawn (st : Store) : List Request → List Nat
  | [] => []
  | .post body :: rs => st.idCounter :: drawn (handle st (.post body)).1 rs
  | r :: rs => drawn (handle st r).1 rs

/-- Replace the record at a position of a stamped list, keeping its stamp. -/
def replaceRecord : List (Nat × JObj) → Nat → JObj → List (Nat × JObj)
  | [], _, _ => []
  | (n, _) :: t, 0, r => (n, r) :: t
  | h :: t, i + 1, r => h :: replaceRecord t i r

/-- Bookkeeping of creation order: `ts` lists the records of `st` together with
the counter value drawn when the record at that position was created.  A create
stamps the new record, an update keeps the stamp of the position it writes, a
delete drops the stamps of the records it drops. -/
def stampedStep (st : Store) (ts : List (Nat × JObj)) : Request → List (Nat × JObj)
  | .post body => ts ++ [(st.idCounter, spread [("id", .num st.idCounter)] body)]
  | .put x body =>
    match findIndex (matchesId x) st.students with
    | .ok (some index) => replaceRecord ts index (spread [("id", parseInt x)] body)
    | _ => ts
  | .delete x =>
    match filter (differsId x) st.students with
    | .ok _ => ts.filter (fun t => !isMatch x t.2)
    | .error _ => ts
  | _ => ts

/-- Stamped records after a sequence of requests. -/
def stampedRun (st : Store) (ts : List (Nat × JObj)) : List Request → List (Nat × JObj)
  | [] => ts
  | r :: rs => stampedRun (handle st r).1 (stampedStep st ts r) rs

/-! ## Identifier assignment on create -/

/-- C1: on the initial store (counter 1) the body `{id: 999, name: "X"}` makes
`POST /students` append and return the record `{id: 999, name: "X"}`: the
spread after `id: idCounter++` lets the `id` of the body replace the counter
value, so the `id` of the created record is 999 and not 1. -/
theorem create_body_id_replaces_counter :
    postStudents initialStore [("id", .num 999), ("name", .str "X")]
        = ({ students := [[("id", .num 999), ("name", .str "X")]], idCounter := 2 },
            .json 201 (.obj [("id", .num 999), ("name", .str "X")]))
      ∧ (postStudents initialStore [("id", .num 999), ("name", .str "X")]).2.recordId
          ≠ some (.num initialStore.idCounter) := by
  refine ⟨rfl, ?_⟩
  show some (JVal.num 999) ≠ some (JVal.num 1)
  simp

/-- C2: after `POST {name: "A"}` and `POST {id: 1, name: "B"}` from the initial
store, `students` holds two records whose `id` is 1: the ids are not pairwise
distinct. -/
theorem reachable_duplicate_ids :
    ids (run initialStore
        [.post [("name", .str "A")], .post [("id", .num 1), ("name", .str "B")]])
        = [some (.num 1), some (.num 1)]
      ∧ ¬ (ids (run initialStore
        [.post [("name", .str "A")], .post [("id", .num 1), ("name", .str "B")]])).Nodup := by
  refine ⟨rfl, ?_⟩
  show ¬ [some (JVal.num 1), some (JVal.num 1)].Nodup
  simp

/-- C3: after `POST {id: 999}` from the initial store, `idCounter` is 2 while
`students` holds a record whose `id` is 999: the counter does not exceed the
id of every stored record. -/
theorem reachable_id_above_counter :
    (run initialStore [.post [("id", .num 999)]]).idCounter = 2
      ∧ ids (run initialStore [.post [("id", .num 999)]]) = [some (.num 999)]
      ∧ ¬ (∀ v ∈ ids (run initialStore [.post [("id", .num 999)]]),
            ∃ n : Int, v = some (.num n)
              ∧ n < (run initialStore [.post [("id", .num 999)]]).idCounter) := by
  refine ⟨rfl, rfl, ?_⟩
  intro h
  obtain ⟨n, hn, hlt⟩ := h (some (.num 999)) (List.mem_singleton.mpr rfl)
  have h999 : n = 999 := by
    have := Option.some.inj hn
    injection this with h'
    exact h'.symm
  subst h999
  exact absurd hlt (by decide)

/-- C4: two `POST {id: 5}` requests from the initial store return records
whose `id` is 5 both times: the returned ids are neither pairwise distinct nor
strictly increasing. -/
theorem create_sequence_repeats_id :
    (responses initialStore [.post [("id", .num 5)], .post [("id", .num 5)]]).map
        Response.recordId = [some (.num 5), some (.num 5)]
      ∧ ¬ ((responses initialStore [.post [("id", .num 5)], .post [("id", .num 5)]]).map
        Response.recordId).Nodup := by
  refine ⟨rfl, ?_⟩
  show ¬ [some (JVal.num 5), some (JVal.num 5)].Nodup
  simp

/-- C5: in the state reached by `POST {id: 2, name: "A"}` the request
`POST {name: "B"}` returns `{id: 2, name: "B"}`, and `GET /students/2` right
afterwards answers 200 with the older record `{id: 2, name: "A"}`, which is
not the record just created. -/
theorem create_then_get_returns_other_record :
    (postStudents (run initialStore [.post [("id", .num 2), ("name", .str "A")]])
        [("name", .str "B")]).2
        = .json 201 (.obj [("id", .num 2), ("name", .str "B")])
      ∧ (getStudent
          (postStudents (run initialStore [.post [("id", .num 2), ("name", .str "A")]])
            [("name", .str "B")]).1 "2").2
        = .json 200 (.obj [("id", .num 2), ("name", .str "A")])
      ∧ Response.json 200 (.obj [("id", .num 2), ("name", .str "A")])
        ≠ .json 200 (.obj [("id", .num 2), ("name", .str "B")]) := by
  refine ⟨rfl, rfl, ?_⟩
  simp

/-! ## Objects: lookup, definition and spread -/

theorem getProp_eq_none_iff (o : JObj) (k : String) : getProp o k = none ↔ k ∉ keys o := by
  induction o with
  | nil => simp [getProp, keys]
  | cons kv t ih =>
    obtain ⟨k1, v1⟩ := kv
    by_cases h : k1 = k
    · simp [getProp, keys, h]
    · have ih' : getProp t k = none ↔ k ∉ List.map Prod.fst t := ih
      simp [getProp, keys, h, ih', Ne.symm h]

theorem getProp_setProp (o : JObj) (k : String) (v : JVal) (k' : String) :
    getProp (setProp o k v) k' = if k = k' then some v else getProp o k' := by
  induction o with
  | nil => simp [setProp, getProp]
  | cons kv t ih =>
    obtain ⟨k1, v1⟩ := kv
    by_cases h : k1 = k
    · subst h
      by_cases h2 : k1 = k'
      · simp [setProp, getProp, h2]
      · simp [setProp, getProp, h2]
    · by_cases h2 : k1 = k'
      · subst h2
        simp [setProp, getProp, h, Ne.symm h]
      · simp [setProp, getProp, h, h2, ih]

theorem mem_keys_setProp (o : JObj) (k : String) (v : JVal) (k' : String) :
    k' ∈ keys (setProp o k v) ↔ k' = k ∨ k' ∈ keys o := by
  induction o with
  | nil => simp [setProp, keys]
  | cons kv t ih =>
    obtain ⟨k1, v1⟩ := kv
    have ih' : k' ∈ List.map Prod.fst (setProp t k v) ↔ k' = k ∨ k' ∈ List.map Prod.fst t := ih
    by_cases h : k1 = k
    · subst h
      simp [setProp, keys]
    · simp only [setProp, h, if_false, keys, List.map_cons, List.mem_cons, ih']
      tauto

theorem nodup_keys_setProp (o : JObj) (k : String) (v : JVal) (h : (keys o).Nodup) :
    (keys (setProp o k v)).Nodup := by
  induction o with
  | nil => simp [setProp, keys]
  | cons kv t ih =>
    obtain ⟨k1, v1⟩ := kv
    have hn : k1 ∉ keys t ∧ (keys t).Nodup := by
      simpa [keys] using h
    by_cases hk : k1 = k
    · subst hk
      simpa [setProp, keys] using h
    · have hmem : k1 ∉ keys (setProp t k v) := by
        rw [mem_keys_setProp]
        rintro (h1 | h1)
        · exact hk h1
        · exact hn.1 h1
      have hcons : keys (setProp ((k1, v1) :: t) k v) = k1 :: keys (setProp t k v) := by
        simp [setProp, hk, keys]
      rw [hcons]
      exact List.nodup_cons.mpr ⟨hmem, ih hn.2⟩

theorem spread_cons (target : JObj) (k : String) (v : JVal) (rest : JObj) :
    spread target ((k, v) :: rest) = spread (setProp target k v) rest := rfl

theorem mem_keys_spread (src target : JObj) (k : String) :
    k ∈ keys (spread target src) ↔ k ∈ keys target ∨ k ∈ keys src := by
  induction src generalizing target with
  | nil => simp [spread, keys]
  | cons kv rest ih =>
    obtain ⟨k1, v1⟩ := kv
    rw [spread_cons, ih, mem_keys_setProp]
    simp only [keys, List.map_cons, List.mem_cons]
    tauto

theorem nodup_keys_spread (src target : JObj) (h : (keys target).Nodup) :
    (keys (spread target src)).Nodup := by
  induction src generalizing target with
  | nil => simpa [spread] using h
  | cons kv rest ih =>
    obtain ⟨k1, v1⟩ := kv
    rw [spread_cons]
    exact ih _ (nodup_keys_setProp target k1 v1 h)

theorem getProp_spread_of_not_mem (src target : JObj) (k : String) (h : k ∉ keys src) :
    getProp (spread target src) k = getProp target k := by
  induction src generalizing target with
  | nil => simp [spread]
  | cons kv rest ih =>
    obtain ⟨k1, v1⟩ := kv
    have hk : k1 ≠ k ∧ k ∉ keys rest := by
      constructor
      · intro h1
        exact h (by simp [keys, h1])
      · intro h1
        exact h (by simp only [keys, List.map_cons, List.mem_cons]; exact Or.inr h1)
    rw [spread_cons, ih _ hk.2, getProp_setProp, if_neg hk.1]

theorem getProp_spread_of_getProp (src target : JObj) (k : String) (v : JVal)
    (hsrc : (keys src).Nodup) (h : getProp src k = some v) :
    getProp (spread target src) k = some v := by
  induction src generalizing target with
  | nil => simp [getProp] at h
  | cons kv rest ih =>
    obtain ⟨k1, v1⟩ := kv
    have hn : k1 ∉ keys rest ∧ (keys rest).Nodup := by
      simpa [keys] using hsrc
    rw [spread_cons]
    by_cases hk : k1 = k
    · subst hk
      have hv : v1 = v := by simpa [getProp] using h
      subst hv
      rw [getProp_spread_of_not_mem _ _ _ hn.1, getProp_setProp, if_pos rfl]
    · have h' : getProp rest k = some v := by simpa [getProp, hk] using h
      exact ih _ hn.2 h'

/-! ## Array methods -/

theorem findIndex_lt (p : JObj → Except JSError Bool) (l : List JObj) (i : Nat)
    (h : findIndex p l = .ok (some i)) : i < l.length := by
  induction l generalizing i with
  | nil => simp [findIndex] at h
  | cons r t ih =>
    unfold findIndex at h
    split at h
    · simp at h
    · simp only [Except.ok.injEq, Option.some.injEq] at h
      subst h
      simp
    · split at h
      · simp at h
      · simp at h
      · rename_i j hj
        simp only [Except.ok.injEq, Option.some.injEq] at h
        subst h
        have := ih j hj
        simp only [List.length_cons]
        omega

/-! ## Update -/

/-- C6: when the identifier matches a record (`findIndex` yields `index`) and
the body is an object, `PUT /students/:id` answers 200 with the object
`{ id: parseInt(identifier), ...body }` and stores that object at `index`.  Its
keys are exactly `id` and the keys of the body, every key of the body carries
the value of the body, and every other key except `id` is absent, whatever the
old record held. -/
theorem put_replaces_whole_record (st : Store) (x : String) (body : JObj) (index : Nat)
    (hbody : (keys body).Nodup)
    (hfound : findIndex (matchesId x) st.students = .ok (some index)) :
    putStudent st x body
        = ({ st with students := st.students.set index (spread [("id", parseInt x)] body) },
            .json 200 (.obj (spread [("id", parseInt x)] body)))
      ∧ (st.students.set index (spread [("id", parseInt x)] body))[index]?
          = some (spread [("id", parseInt x)] body)
      ∧ (keys (spread [("id", parseInt x)] body)).Nodup
      ∧ (∀ k, k ∈ keys (spread [("id", parseInt x)] body) ↔ k = "id" ∨ k ∈ keys body)
      ∧ (∀ k v, getProp body k = some v →
          getProp (spread [("id", parseInt x)] body) k = some v)
      ∧ (∀ k, k ≠ "id" → k ∉ keys body →
          getProp (spread [("id", parseInt x)] body) k = none) := by
  refine ⟨?_, ?_, ?_, ?_, ?_, ?_⟩
  · simp [putStudent, hfound]
  · have hlt := findIndex_lt _ _ _ hfound
    simp [hlt]
  · exact nodup_keys_spread _ _ (by simp [keys])
  · intro k
    rw [mem_keys_spread]
    simp [keys]
  · intro k v hv
    exact getProp_spread_of_getProp _ _ _ _ hbody hv
  · intro k hk hnot
    rw [getProp_spread_of_not_mem _ _ _ hnot]
    simp [getProp, Ne.symm hk]

/-- C6 at the record `{id: 1, name: "Alice", age: 20}` updated through
`PUT /students/1` with `{name: "Bob"}`: the stored and returned record is
exactly `{id: 1, name: "Bob"}`. -/
theorem put_replaces_whole_record_witness :
    (keys [("name", JVal.str "Bob")]).Nodup
      ∧ findIndex (matchesId "1")
          [[("id", .num 1), ("name", .str "Alice"), ("age", .num 20)]] = .ok (some 0)
      ∧ putStudent
          { students := [[("id", .num 1), ("name", .str "Alice"), ("age", .num 20)]],
            idCounter := 2 } "1" [("name", .str "Bob")]
        = ({ students := [[("id", .num 1), ("name", .str "Bob")]], idCounter := 2 },
            .json 200 (.obj [("id", .num 1), ("name", .str "Bob")])) :=
  ⟨by simp [keys], rfl,
    (put_replaces_whole_record
      { students := [[("id", .num 1), ("name", .str "Alice"), ("age", .num 20)]],
        idCounter := 2 } "1" [("name", .str "Bob")] 0 (by simp [keys]) rfl).1⟩

/-- C7: on the store `[{id: 1, name: "Alice"}]` the request `PUT /students/1`
with body `{id: 999, name: "Bob"}` stores and returns `{id: 999, name: "Bob"}`:
the `id` of the body replaces the id of the matched record. -/
theorem put_body_id_replaces_stored_id :
    run initialStore [.post [("name", .str "Alice")]]
        = { students := [[("id", .num 1), ("name", .str "Alice")]], idCounter := 2 }
      ∧ putStudent (run initialStore [.post [("name", .str "Alice")]]) "1"
          [("id", .num 999), ("name", .str "Bob")]
        = ({ students := [[("id", .num 999), ("name", .str "Bob")]], idCounter := 2 },
            .json 200 (.obj [("id", .num 999), ("name", .str "Bob")]))
      ∧ (putStudent (run initialStore [.post [("name", .str "Alice")]]) "1"
          [("id", .num 999), ("name", .str "Bob")]).2.recordId ≠ some (.num 1) := by
  refine ⟨rfl, rfl, ?_⟩
  show some (JVal.num 999) ≠ some (JVal.num 1)
  simp

/-- C8: on the store `[{id: 1, name: "Alice"}]` the identifier `10e-1` matches
the record (`1 == "10e-1"`), `parseInt("10e-1")` is 10, and `PUT /students/10e-1`
with body `{name: "Bob"}` writes `{id: 10, name: "Bob"}` in place of the record
whose id was 1. -/
theorem put_parseInt_changes_matched_id :
    matchesId "10e-1" [("id", .num 1), ("name", .str "Alice")] = .ok true
      ∧ parseInt "10e-1" = .num 10
      ∧ putStudent (run initialStore [.post [("name", .str "Alice")]]) "10e-1"
          [("name", .str "Bob")]
        = ({ students := [[("id", .num 10), ("name", .str "Bob")]], idCounter := 2 },
            .json 200 (.obj [("id", .num 10), ("name", .str "Bob")]))
      ∧ JVal.num 10 ≠ JVal.num 1 := by
  refine ⟨rfl, rfl, rfl, ?_⟩
  simp

/-- C9: after `POST {id: 999}` from the initial store the counter is 2, so the
only id drawn from the counter is 1; still `GET /students/999` and
`PUT /students/999` answer 200 with the record `{id: 999}` and not 404. -/
theorem never_issued_id_is_found :
    (run initialStore [.post [("id", .num 999)]]).idCounter = 2
      ∧ (getStudent (run initialStore [.post [("id", .num 999)]]) "999").2
          = .json 200 (.obj [("id", .num 999)])
      ∧ (putStudent (run initialStore [.post [("id", .num 999)]]) "999" []).2
          = .json 200 (.obj [("id", .num 999)])
      ∧ (getStudent (run initialStore [.post [("id", .num 999)]]) "999").2.status ≠ 404
      ∧ (putStudent (run initialStore [.post [("id", .num 999)]]) "999" []).2.status
          ≠ 404 := by
  refine ⟨rfl, rfl, rfl, ?_, ?_⟩
  · show (200 : Nat) ≠ 404
    decide
  · show (200 : Nat) ≠ 404
    decide

/-! ## Delete -/

theorem filter_fixed (p : JObj → Except JSError Bool) (l kept : List JObj)
    (h : filter p l = .ok kept) : filter p kept = .ok kept := by
  induction l generalizing kept with
  | nil =>
    simp only [filter, Except.ok.injEq] at h
    subst h
    rfl
  | cons r t ih =>
    unfold filter at h
    split at h
    · simp at h
    · rename_i b hb
      split at h
      · simp at h
      · rename_i l' hl'
        simp only [Except.ok.injEq] at h
        have ih' := ih l' hl'
        cases b with
        | true =>
          simp only [if_true] at h
          subst h
          simp [filter, hb, ih']
        | false =>
          simp only [Bool.false_eq_true, if_false] at h
          subst h
          exact ih'

theorem filter_eq_self (p : JObj → Except JSError Bool) (l kept : List JObj)
    (h : filter p l = .ok kept) (hall : ∀ r ∈ l, p r ≠ .ok false) : kept = l := by
  induction l generalizing kept with
  | nil =>
    simp only [filter, Except.ok.injEq] at h
    exact h.symm
  | cons r t ih =>
    unfold filter at h
    split at h
    · simp at h
    · rename_i b hb
      split at h
      · simp at h
      · rename_i l' hl'
        simp only [Except.ok.injEq] at h
        have ih' := ih l' hl' (fun r' hr' => hall r' (List.mem_cons_of_mem _ hr'))
        cases b with
        | true =>
          simp only [if_true] at h
          rw [← h, ih']
        | false =>
          exact absurd hb (hall r (List.mem_cons_self _ _))

theorem filter_completes (p : JObj → Except JSError Bool) (l : List JObj)
    (hall : ∀ r ∈ l, ∃ b, p r = .ok b) : ∃ kept, filter p l = .ok kept := by
  induction l with
  | nil => exact ⟨[], rfl⟩
  | cons r t ih =>
    obtain ⟨b, hb⟩ := hall r (List.mem_cons_self _ _)
    obtain ⟨l', hl'⟩ := ih (fun r' hr' => hall r' (List.mem_cons_of_mem _ hr'))
    exact ⟨if b then r :: l' else l', by simp [filter, hb, hl']⟩

theorem differsId_eq_false_iff (x : String) (s : JObj) :
    differsId x s = .ok false ↔ matchesId x s = .ok true := by
  unfold differsId matchesId
  cases h : looseEq (getProp s "id") x with
  | error e => simp
  | ok b => cases b <;> simp

theorem differsId_completes (x : String) (s : JObj) (b : Bool) (h : matchesId x s = .ok b) :
    differsId x s = .ok (!b) := by
  unfold matchesId at h
  simp [differsId, h]

theorem looseEq_completes_of_primitive (v : JVal) (x : String) (h : v.isPrimitive = true) :
    ∃ b, looseEq (some v) x = .ok b := by
  cases v with
  | null => exact ⟨_, rfl⟩
  | bool b => exact ⟨_, rfl⟩
  | num n => exact ⟨_, rfl⟩
  | nan => exact ⟨_, rfl⟩
  | inf neg => exact ⟨_, rfl⟩
  | str s => exact ⟨_, rfl⟩
  | arr xs => simp [JVal.isPrimitive] at h
  | obj kvs => simp [JVal.isPrimitive] at h

theorem deleteStudent_cases (st : Store) (x : String) :
    (∃ kept, filter (differsId x) st.students = .ok kept
        ∧ deleteStudent st x = ({ st with students := kept }, .sendStatus 204))
      ∨ (∃ e, filter (differsId x) st.students = .error e
        ∧ deleteStudent st x = (st, .uncaught e)) := by
  unfold deleteStudent
  cases h : filter (differsId x) st.students with
  | error e => exact Or.inr ⟨e, rfl, rfl⟩
  | ok kept => exact Or.inl ⟨kept, rfl, rfl⟩

/-- C10: after `POST {id: {toString: 1}}` the store holds a record whose `id`
cannot be converted to a primitive; the comparison in the `filter` callback of
`DELETE /students/1` throws, the store is not reassigned and the response is
the error response (status 500), not 204. -/
theorem delete_throws_on_unconvertible_id :
    run initialStore [.post [("id", .obj [("toString", .num 1)])]]
        = { students := [[("id", .obj [("toString", .num 1)])]], idCounter := 2 }
      ∧ deleteStudent (run initialStore [.post [("id", .obj [("toString", .num 1)])]]) "1"
        = ({ students := [[("id", .obj [("toString", .num 1)])]], idCounter := 2 },
            .uncaught .typeError)
      ∧ (deleteStudent (run initialStore [.post [("id", .obj [("toString", .num 1)])]])
          "1").2.status ≠ 204 := by
  refine ⟨rfl, rfl, ?_⟩
  show (500 : Nat) ≠ 204
  decide

/-- Delete on stores whose ids can be compared: a second `DELETE` of the same
identifier leaves the store as the first one left it, a `DELETE` that matches
no record leaves the store (records, order, counter) unchanged, and the
response is 204 without body on both calls whenever every comparison of a
stored `id` with the identifier completes, as it does when every stored `id`
is a number, a string, a boolean or `null`. -/
theorem delete_idempotent_noop (st : Store) (x : String) :
    (deleteStudent (deleteStudent st x).1 x).1 = (deleteStudent st x).1
      ∧ ((∀ s ∈ st.students, matchesId x s ≠ .ok true) → (deleteStudent st x).1 = st)
      ∧ ((∀ s ∈ st.students, ∃ b, matchesId x s = .ok b) →
          (deleteStudent st x).2 = .sendStatus 204
            ∧ (deleteStudent (deleteStudent st x).1 x).2 = .sendStatus 204)
      ∧ ((∀ s ∈ st.students, ∃ v, getProp s "id" = some v ∧ v.isPrimitive = true) →
          (deleteStudent st x).2 = .sendStatus 204
            ∧ (deleteStudent (deleteStudent st x).1 x).2 = .sendStatus 204)
      ∧ ((deleteStudent st x).2 = .sendStatus 204
          ∨ ((deleteStudent st x).2 = .uncaught .typeError ∧ (deleteStudent st x).1 = st)) := by
  have hcomplete : (∀ s ∈ st.students, ∃ b, matchesId x s = .ok b) →
      (deleteStudent st x).2 = .sendStatus 204
        ∧ (deleteStudent (deleteStudent st x).1 x).2 = .sendStatus 204 := by
    intro hall
    obtain ⟨kept, hkept⟩ := filter_completes (differsId x) st.students (fun s hs => by
      obtain ⟨b, hb⟩ := hall s hs
      exact ⟨!b, differsId_completes x s b hb⟩)
    have hfix := filter_fixed _ _ _ hkept
    have h1 : deleteStudent st x = ({ st with students := kept }, .sendStatus 204) := by
      simp [deleteStudent, hkept]
    refine ⟨by rw [h1], ?_⟩
    rw [h1]
    simp [deleteStudent, hfix]
  refine ⟨?_, ?_, hcomplete, ?_, ?_⟩
  · rcases deleteStudent_cases st x with ⟨kept, hkept, hdel⟩ | ⟨e, _, hdel⟩
    · have hfix := filter_fixed _ _ _ hkept
      rw [hdel]
      simp [deleteStudent, hfix]
    · rw [hdel]
      show (deleteStudent st x).1 = st
      rw [hdel]
  · intro hall
    rcases deleteStudent_cases st x with ⟨kept, hkept, hdel⟩ | ⟨e, _, hdel⟩
    · have hself := filter_eq_self _ _ _ hkept (fun r hr hfalse =>
        hall r hr ((differsId_eq_false_iff x r).mp hfalse))
      rw [hdel, hself]
    · rw [hdel]
  · intro hprim
    apply hcomplete
    intro s hs
    obtain ⟨v, hv, hp⟩ := hprim s hs
    unfold matchesId
    rw [hv]
    exact looseEq_completes_of_primitive v x hp
  · rcases deleteStudent_cases st x with ⟨kept, _, hdel⟩ | ⟨e, _, hdel⟩
    · left
      rw [hdel]
    · right
      cases e
      rw [hdel]
      exact ⟨rfl, rfl⟩

/-- Delete at the store `[{id: 1, name: "A"}, {id: 2, name: "B"}]`: deleting `1`
twice leaves `[{id: 2, name: "B"}]` with the counter at 3 and answers 204 both
times, and deleting `7`, which matches nothing, changes nothing. -/
theorem delete_idempotent_noop_witness :
    (∀ s ∈ [[("id", JVal.num 1), ("name", JVal.str "A")],
          [("id", JVal.num 2), ("name", JVal.str "B")]], matchesId "7" s ≠ .ok true)
      ∧ (deleteStudent
          { students := [[("id", .num 1), ("name", .str "A")],
              [("id", .num 2), ("name", .str "B")]], idCounter := 3 } "7").1
        = { students := [[("id", .num 1), ("name", .str "A")],
              [("id", .num 2), ("name", .str "B")]], idCounter := 3 }
      ∧ (deleteStudent (deleteStudent
          { students := [[("id", .num 1), ("name", .str "A")],
              [("id", .num 2), ("name", .str "B")]], idCounter := 3 } "1").1 "1").1
        = (deleteStudent
          { students := [[("id", .num 1), ("name", .str "A")],
              [("id", .num 2), ("name", .str "B")]], idCounter := 3 } "1").1
      ∧ (deleteStudent
          { students := [[("id", .num 1), ("name", .str "A")],
              [("id", .num 2), ("name", .str "B")]], idCounter := 3 } "1").2
        = .sendStatus 204 := by
  have hno : ∀ s ∈ [[("id", JVal.num 1), ("name", JVal.str "A")],
      [("id", JVal.num 2), ("name", JVal.str "B")]], matchesId "7" s ≠ .ok true := by
    intro s hs
    simp only [List.mem_cons, List.mem_singleton, List.not_mem_nil, or_false] at hs
    rcases hs with rfl | rfl
    · show Except.ok false ≠ Except.ok true
      simp
    · show Except.ok false ≠ Except.ok true
      simp
  have hprim : ∀ s ∈ [[("id", JVal.num 1), ("name", JVal.str "A")],
      [("id", JVal.num 2), ("name", JVal.str "B")]],
      ∃ v, getProp s "id" = some v ∧ v.isPrimitive = true := by
    intro s hs
    simp only [List.mem_cons, List.mem_singleton, List.not_mem_nil, or_false] at hs
    rcases hs with rfl | rfl
    · exact ⟨_, rfl, rfl⟩
    · exact ⟨_, rfl, rfl⟩
  exact ⟨hno,
    (delete_idempotent_noop
      { students := [[("id", .num 1), ("name", .str "A")],
          [("id", .num 2), ("name", .str "B")]], idCounter := 3 } "7").2.1 hno,
    (delete_idempotent_noop
      { students := [[("id", .num 1), ("name", .str "A")],
          [("id", .num 2), ("name", .str "B")]], idCounter := 3 } "1").1,
    ((delete_idempotent_noop
      { students := [[("id", .num 1), ("name", .str "A")],
          [("id", .num 2), ("name", .str "B")]], idCounter := 3 } "1").2.2.2.1 hprim).1⟩

/-! ## More on the array methods -/

theorem find_none_of_all_false (p : JObj → Except JSError Bool) (l : List JObj)
    (h : ∀ s ∈ l, p s = .ok false) : find p l = .ok none := by
  induction l with
  | nil => rfl
  | cons r t ih =>
    have hr := h r (List.mem_cons_self _ _)
    simp [find, hr, ih (fun s hs => h s (List.mem_cons_of_mem _ hs))]

theorem findIndex_none_of_all_false (p : JObj → Except JSError Bool) (l : List JObj)
    (h : ∀ s ∈ l, p s = .ok false) : findIndex p l = .ok none := by
  induction l with
  | nil => rfl
  | cons r t ih =>
    have hr := h r (List.mem_cons_self _ _)
    simp [findIndex, hr, ih (fun s hs => h s (List.mem_cons_of_mem _ hs))]

theorem findIndex_none_iff (p : JObj → Except JSError Bool) (l : List JObj) :
    findIndex p l = .ok none ↔ ∀ s ∈ l, p s = .ok false := by
  refine ⟨?_, findIndex_none_of_all_false p l⟩
  induction l with
  | nil => intro _ s hs; simp at hs
  | cons r t ih =>
    intro h
    unfold findIndex at h
    split at h
    · simp at h
    · simp at h
    · rename_i hr
      split at h
      · simp at h
      · rename_i ht
        intro s hs
        rcases List.mem_cons.mp hs with rfl | hs'
        · exact hr
        · exact ih ht s hs'
      · simp at h

theorem find_none_iff (p : JObj → Except JSError Bool) (l : List JObj) :
    find p l = .ok none ↔ ∀ s ∈ l, p s = .ok false := by
  refine ⟨?_, find_none_of_all_false p l⟩
  induction l with
  | nil => intro _ s hs; simp at hs
  | cons r t ih =>
    intro h
    unfold find at h
    split at h
    · simp at h
    · simp at h
    · rename_i hr
      intro s hs
      rcases List.mem_cons.mp hs with rfl | hs'
      · exact hr
      · exact ih h s hs'

theorem findIndex_spec (p : JObj → Except JSError Bool) (l : List JObj) (i : Nat)
    (h : findIndex p l = .ok (some i)) :
    (∃ s, l[i]? = some s ∧ p s = .ok true)
      ∧ ∀ j, j < i → ∃ s, l[j]? = some s ∧ p s = .ok false := by
  induction l generalizing i with
  | nil => simp [findIndex] at h
  | cons r t ih =>
    unfold findIndex at h
    split at h
    · simp at h
    · rename_i hr
      simp only [Except.ok.injEq, Option.some.injEq] at h
      subst h
      exact ⟨⟨r, by simp, hr⟩, fun j hj => absurd hj (Nat.not_lt_zero j)⟩
    · rename_i hr
      split at h
      · simp at h
      · simp at h
      · rename_i k hk
        simp only [Except.ok.injEq, Option.some.injEq] at h
        subst h
        obtain ⟨hfound, hbefore⟩ := ih k hk
        refine ⟨by simpa using hfound, ?_⟩
        intro j hj
        cases j with
        | zero => exact ⟨r, by simp, hr⟩
        | succ j' =>
          have := hbefore j' (by omega)
          simpa using this

theorem filter_eq_list_filter (p : JObj → Except JSError Bool) (l kept : List JObj)
    (h : filter p l = .ok kept) :
    kept = l.filter (fun s => match p s with
      | .ok true => true
      | _ => false)
      ∧ ∀ s ∈ l, ∃ b, p s = .ok b := by
  induction l generalizing kept with
  | nil =>
    simp only [filter, Except.ok.injEq] at h
    subst h
    simp
  | cons r t ih =>
    unfold filter at h
    split at h
    · simp at h
    · rename_i b hb
      split at h
      · simp at h
      · rename_i l' hl'
        simp only [Except.ok.injEq] at h
        obtain ⟨ih1, ih2⟩ := ih l' hl'
        refine ⟨?_, ?_⟩
        · cases b with
          | true =>
            simp only [if_true] at h
            rw [← h, List.filter_cons, hb]
            simp only [if_true]
            rw [← ih1]
          | false =>
            simp only [Bool.false_eq_true, if_false] at h
            rw [← h, List.filter_cons, hb]
            simp only [Bool.false_eq_true, if_false]
            exact ih1
        · intro s hs
          rcases List.mem_cons.mp hs with rfl | hs'
          · exact ⟨b, hb⟩
          · exact ih2 s hs'

theorem filter_error_iff (p : JObj → Except JSError Bool) (l : List JObj) :
    (∃ e, filter p l = .error e) ↔ ∃ s ∈ l, ∃ e, p s = .error e := by
  constructor
  · rintro ⟨e, he⟩
    by_contra hno
    have hall : ∀ r ∈ l, ∃ b, p r = .ok b := by
      intro r hr
      cases hp : p r with
      | ok b => exact ⟨b, rfl⟩
      | error e' => exact absurd ⟨r, hr, e', hp⟩ hno
    obtain ⟨kept, hk⟩ := filter_completes p l hall
    rw [hk] at he
    simp at he
  · rintro ⟨s, hs, e, he⟩
    cases hf : filter p l with
    | error e' => exact ⟨e', rfl⟩
    | ok kept =>
      obtain ⟨b, hb⟩ := (filter_eq_list_filter p l kept hf).2 s hs
      rw [hb] at he
      simp at he

theorem isMatch_eq_true_iff (x : String) (s : JObj) :
    isMatch x s = true ↔ matchesId x s = .ok true := by
  unfold isMatch
  split
  · rename_i h
    simp [h]
  · rename_i h
    constructor
    · intro h'
      simp at h'
    · intro h'
      exact absurd h' h

theorem differsId_keeps_eq (x : String) (s : JObj) (b : Bool) (h : matchesId x s = .ok b) :
    (match differsId x s with
      | .ok true => true
      | _ => false) = !isMatch x s := by
  have hd := differsId_completes x s b h
  unfold isMatch
  rw [hd, h]
  cases b <;> rfl

theorem deleteStudent_students_of_completes (st : Store) (x : String)
    (hall : ∀ s ∈ st.students, ∃ b, matchesId x s = .ok b) :
    deleteStudent st x
      = ({ st with students := st.students.filter (fun s => !isMatch x s) },
          .sendStatus 204) := by
  obtain ⟨kept, hkept⟩ := filter_completes (differsId x) st.students (fun s hs => by
    obtain ⟨b, hb⟩ := hall s hs
    exact ⟨!b, differsId_completes x s b hb⟩)
  have hk := (filter_eq_list_filter _ _ _ hkept).1
  have hfun : st.students.filter (fun s => match differsId x s with
      | .ok true => true
      | _ => false) = st.students.filter (fun s => !isMatch x s) := by
    apply List.filter_congr
    intro s hs
    obtain ⟨b, hb⟩ := hall s hs
    exact differsId_keeps_eq x s b hb
  simp [deleteStudent, hkept, hk, hfun]

/-! ## Frame properties of the handlers -/

theorem getStudent_store (st : Store) (x : String) : (getStudent st x).1 = st := by
  unfold getStudent
  split <;> rfl

theorem putStudent_idCounter (st : Store) (x : String) (body : JObj) :
    (putStudent st x body).1.idCounter = st.idCounter := by
  unfold putStudent
  split <;> rfl

theorem deleteStudent_idCounter (st : Store) (x : String) :
    (deleteStudent st x).1.idCounter = st.idCounter := by
  unfold deleteStudent
  split <;> rfl

theorem handle_idCounter (st : Store) (r : Request) :
    (handle st r).1.idCounter
      = st.idCounter + (match r with
        | .post _ => 1
        | _ => 0) := by
  cases r with
  | post body => rfl
  | getAll => rfl
  | getOne x => simp [handle, getStudent_store]
  | put x body => simp [handle, putStudent_idCounter]
  | delete x => simp [handle, deleteStudent_idCounter]

theorem handle_idCounter_le (st : Store) (r : Request) :
    st.idCounter ≤ (handle st r).1.idCounter := by
  rw [handle_idCounter]
  omega

theorem run_idCounter_le (st : Store) (rs : List Request) :
    st.idCounter ≤ (run st rs).idCounter := by
  induction rs generalizing st with
  | nil => exact Nat.le_refl _
  | cons r rs ih => exact Nat.le_trans (handle_idCounter_le st r) (ih _)

theorem drawn_bounds (st : Store) (rs : List Request) :
    ∀ n ∈ drawn st rs, st.idCounter ≤ n ∧ n < (run st rs).idCounter := by
  induction rs generalizing st with
  | nil => intro n hn; simp [drawn] at hn
  | cons r rs ih =>
    intro n hn
    cases r with
    | post body =>
      simp only [drawn, List.mem_cons] at hn
      have hc : (handle st (.post body)).1.idCounter = st.idCounter + 1 := rfl
      rcases hn with rfl | hn
      · refine ⟨Nat.le_refl _, ?_⟩
        have := run_idCounter_le (handle st (.post body)).1 rs
        show st.idCounter < (run (handle st (.post body)).1 rs).idCounter
        omega
      · have := ih _ n hn
        show st.idCounter ≤ n ∧ n < (run (handle st (.post body)).1 rs).idCounter
        omega
    | getAll =>
      have := ih (handle st .getAll).1 n hn
      have hc := handle_idCounter st .getAll
      simp only at hc
      show st.idCounter ≤ n ∧ n < (run (handle st .getAll).1 rs).idCounter
      omega
    | getOne x =>
      have := ih (handle st (.getOne x)).1 n hn
      have hc := handle_idCounter st (.getOne x)
      simp only at hc
      show st.idCounter ≤ n ∧ n < (run (handle st (.getOne x)).1 rs).idCounter
      omega
    | put x body =>
      have := ih (handle st (.put x body)).1 n hn
      have hc := handle_idCounter st (.put x body)
      simp only at hc
      show st.idCounter ≤ n ∧ n < (run (handle st (.put x body)).1 rs).idCounter
      omega
    | delete x =>
      have := ih (handle st (.delete x)).1 n hn
      have hc := handle_idCounter st (.delete x)
      simp only at hc
      show st.idCounter ≤ n ∧ n < (run (handle st (.delete x)).1 rs).idCounter
      omega

theorem drawn_increasing (st : Store) (rs : List Request) :
    (drawn st rs).Pairwise (· < ·) := by
  induction rs generalizing st with
  | nil => simp [drawn]
  | cons r rs ih =>
    cases r with
    | post body =>
      simp only [drawn, List.pairwise_cons]
      refine ⟨?_, ih _⟩
      intro n hn
      have := (drawn_bounds _ rs n hn).1
      have hc : (handle st (.post body)).1.idCounter = st.idCounter + 1 := rfl
      omega
    | getAll => exact ih _
    | getOne x => exact ih _
    | put x body => exact ih _
    | delete x => exact ih _

/-- C14: `idCounter` is 1 in the initial store; list, get-one, update and delete
leave it unchanged and every create increases it by exactly 1; therefore the
counter values drawn by the creates of any request sequence are strictly
increasing in call order, whatever was deleted in between, and each of them is
below the counter reached at the end. -/
theorem counter_starts_at_one_and_only_grows :
    initialStore.idCounter = 1
      ∧ (∀ st, (getStudents st).1.idCounter = st.idCounter)
      ∧ (∀ st x, (getStudent st x).1.idCounter = st.idCounter)
      ∧ (∀ st x body, (putStudent st x body).1.idCounter = st.idCounter)
      ∧ (∀ st x, (deleteStudent st x).1.idCounter = st.idCounter)
      ∧ (∀ st body, (postStudents st body).1.idCounter = st.idCounter + 1)
      ∧ (∀ st rs, (drawn st rs).Pairwise (· < ·))
      ∧ (∀ rs, ∀ n ∈ drawn initialStore rs, 1 ≤ n ∧ n < (run initialStore rs).idCounter) := by
  refine ⟨rfl, fun _ => rfl, ?_, putStudent_idCounter, deleteStudent_idCounter,
    fun _ _ => rfl, drawn_increasing, ?_⟩
  · intro st x
    rw [getStudent_store]
  · intro rs n hn
    exact drawn_bounds initialStore rs n hn

/-- C15: from the initial store, `POST {name: "Alice", age: 20}` answers 201
with `{id: 1, name: "Alice", age: 20}`, `GET /students/1` answers 200 with the
same record, `PUT /students/1 {name: "Alice Smith", age: 21}` answers 200 with
`{id: 1, name: "Alice Smith", age: 21}`, `DELETE /students/1` answers 204 and a
last `GET /students/1` answers 404 with the text `Not Found`. -/
theorem end_to_end_scenario :
    responses initialStore
        [.post [("name", .str "Alice"), ("age", .num 20)],
          .getOne "1",
          .put "1" [("name", .str "Alice Smith"), ("age", .num 21)],
          .delete "1",
          .getOne "1"]
      = [.json 201 (.obj [("id", .num 1), ("name", .str "Alice"), ("age", .num 20)]),
          .json 200 (.obj [("id", .num 1), ("name", .str "Alice"), ("age", .num 20)]),
          .json 200 (.obj [("id", .num 1), ("name", .str "Alice Smith"), ("age", .num 21)]),
          .sendStatus 204,
          .send 404 "Not Found"] := rfl

theorem putStudent_cases (st : Store) (x : String) (body : JObj) :
    (∃ index, findIndex (matchesId x) st.students = .ok (some index)
        ∧ putStudent st x body
          = ({ st with students := st.students.set index (spread [("id", parseInt x)] body) },
              .json 200 (.obj (spread [("id", parseInt x)] body))))
      ∨ (findIndex (matchesId x) st.students = .ok none
        ∧ putStudent st x body = (st, .send 404 "Not Found"))
      ∨ (∃ e, findIndex (matchesId x) st.students = .error e
        ∧ putStudent st x body = (st, .uncaught e)) := by
  unfold putStudent
  cases h : findIndex (matchesId x) st.students with
  | error e => exact Or.inr (Or.inr ⟨e, rfl, rfl⟩)
  | ok r =>
    cases r with
    | none => exact Or.inr (Or.inl ⟨rfl, rfl⟩)
    | some index => exact Or.inl ⟨index, rfl, rfl⟩

/-- C17: `PUT /students/:id` never changes `idCounter` nor the length of
`students`.  When `findIndex` yields `index`, that position holds the first
record matching the identifier (every earlier record compares unequal), it
receives the new record, and every other position keeps its record.  When no
record matches the response is 404 `Not Found` and the store is unchanged, and
a 404 response always comes with an unchanged store.  In every case a position
whose record changed is the position `findIndex` found. -/
theorem put_changes_only_first_match (st : Store) (x : String) (body : JObj) :
    (putStudent st x body).1.idCounter = st.idCounter
      ∧ (putStudent st x body).1.students.length = st.students.length
      ∧ (∀ index, findIndex (matchesId x) st.students = .ok (some index) →
          (∃ s, st.students[index]? = some s ∧ matchesId x s = .ok true)
            ∧ (∀ j, j < index → ∃ s, st.students[j]? = some s ∧ matchesId x s = .ok false)
            ∧ (putStudent st x body).1.students[index]?
                = some (spread [("id", parseInt x)] body)
            ∧ ∀ j, j ≠ index → (putStudent st x body).1.students[j]? = st.students[j]?)
      ∧ ((∀ s ∈ st.students, matchesId x s = .ok false) →
          putStudent st x body = (st, .send 404 "Not Found"))
      ∧ ((putStudent st x body).2 = .send 404 "Not Found" → (putStudent st x body).1 = st)
      ∧ (∀ j, (putStudent st x body).1.students[j]? ≠ st.students[j]? →
          findIndex (matchesId x) st.students = .ok (some j)) := by
  refine ⟨putStudent_idCounter st x body, ?_, ?_, ?_, ?_, ?_⟩
  · rcases putStudent_cases st x body with ⟨i, _, h⟩ | ⟨_, h⟩ | ⟨e, _, h⟩
    · rw [h]
      simp
    · rw [h]
    · rw [h]
  · intro index hfound
    have hspec := findIndex_spec _ _ _ hfound
    have hlt := findIndex_lt _ _ _ hfound
    have hput : putStudent st x body
        = ({ st with students := st.students.set index (spread [("id", parseInt x)] body) },
            .json 200 (.obj (spread [("id", parseInt x)] body))) := by
      simp [putStudent, hfound]
    refine ⟨hspec.1, hspec.2, ?_, ?_⟩
    · rw [hput]
      simp [hlt]
    · intro j hj
      rw [hput]
      simp [List.getElem?_set, Ne.symm hj]
  · intro hall
    have hnone := findIndex_none_of_all_false _ _ hall
    simp [putStudent, hnone]
  · intro hresp
    rcases putStudent_cases st x body with ⟨i, _, h⟩ | ⟨_, h⟩ | ⟨e, _, h⟩
    · rw [h] at hresp
      simp at hresp
    · rw [h]
    · rw [h]
  · intro j hj
    rcases putStudent_cases st x body with ⟨i, hi, h⟩ | ⟨_, h⟩ | ⟨e, _, h⟩
    · by_cases hji : j = i
      · rw [hji]
        exact hi
      · rw [h] at hj
        simp [List.getElem?_set, Ne.symm hji] at hj
    · rw [h] at hj
      exact absurd rfl hj
    · rw [h] at hj
      exact absurd rfl hj

/-- C17 at the store `[{id: 1, name: "A"}, {id: 2, name: "B"}, {id: 2, name: "C"}]`:
`PUT /students/2` with `{name: "Z"}` rewrites position 1, the first record whose
id matches, leaves positions 0 and 2 alone, and `PUT /students/7` answers 404
`Not Found` without changing the store. -/
theorem put_changes_only_first_match_witness :
    findIndex (matchesId "2")
        [[("id", JVal.num 1), ("name", JVal.str "A")],
          [("id", JVal.num 2), ("name", JVal.str "B")],
          [("id", JVal.num 2), ("name", JVal.str "C")]] = .ok (some 1)
      ∧ (putStudent
          { students := [[("id", .num 1), ("name", .str "A")],
              [("id", .num 2), ("name", .str "B")],
              [("id", .num 2), ("name", .str "C")]], idCounter := 4 } "2"
          [("name", .str "Z")]).1.students[1]?
        = some [("id", .num 2), ("name", .str "Z")]
      ∧ (putStudent
          { students := [[("id", .num 1), ("name", .str "A")],
              [("id", .num 2), ("name", .str "B")],
              [("id", .num 2), ("name", .str "C")]], idCounter := 4 } "2"
          [("name", .str "Z")]).1.students[2]?
        = some [("id", .num 2), ("name", .str "C")]
      ∧ putStudent
          { students := [[("id", .num 1), ("name", .str "A")],
              [("id", .num 2), ("name", .str "B")],
              [("id", .num 2), ("name", .str "C")]], idCounter := 4 } "7"
          [("name", .str "Z")]
        = ({ students := [[("id", .num 1), ("name", .str "A")],
              [("id", .num 2), ("name", .str "B")],
              [("id", .num 2), ("name", .str "C")]], idCounter := 4 },
            .send 404 "Not Found") := by
  have hnone : ∀ s ∈ [[("id", JVal.num 1), ("name", JVal.str "A")],
      [("id", JVal.num 2), ("name", JVal.str "B")],
      [("id", JVal.num 2), ("name", JVal.str "C")]], matchesId "7" s = .ok false := by
    intro s hs
    simp only [List.mem_cons, List.mem_singleton, List.not_mem_nil, or_false] at hs
    rcases hs with rfl | rfl | rfl <;> rfl
  exact ⟨rfl,
    ((put_changes_only_first_match
      { students := [[("id", .num 1), ("name", .str "A")],
          [("id", .num 2), ("name", .str "B")],
          [("id", .num 2), ("name", .str "C")]], idCounter := 4 } "2"
      [("name", .str "Z")]).2.2.1 1 rfl).2.2.1,
    ((put_changes_only_first_match
      { students := [[("id", .num 1), ("name", .str "A")],
          [("id", .num 2), ("name", .str "B")],
          [("id", .num 2), ("name", .str "C")]], idCounter := 4 } "2"
      [("name", .str "Z")]).2.2.1 1 rfl).2.2.2 2 (by decide),
    (put_changes_only_first_match
      { students := [[("id", .num 1), ("name", .str "A")],
          [("id", .num 2), ("name", .str "B")],
          [("id", .num 2), ("name", .str "C")]], idCounter := 4 } "7"
      [("name", .str "Z")]).2.2.2.1 hnone⟩

theorem differsId_error_iff (x : String) (s : JObj) (e : JSError) :
    differsId x s = .error e ↔ matchesId x s = .error e := by
  unfold differsId matchesId
  cases h : looseEq (getProp s "id") x with
  | error e' => simp
  | ok b => simp

theorem completes_of_primitive_ids (l : List JObj) (x : String)
    (h : ∀ s ∈ l, ∃ v, getProp s "id" = some v ∧ v.isPrimitive = true) :
    ∀ s ∈ l, ∃ b, matchesId x s = .ok b := by
  intro s hs
  obtain ⟨v, hv, hp⟩ := h s hs
  unfold matchesId
  rw [hv]
  exact looseEq_completes_of_primitive v x hp

/-- C11: after `POST {name: "A"}` and `POST {id: {toString: 1}}` the record
`{id: 1, name: "A"}` matches the identifier `1`, yet `DELETE /students/1`
throws while comparing the second record and leaves both records in the
collection: the matching record is not removed. -/
theorem delete_keeps_match_when_comparison_throws :
    run initialStore [.post [("name", .str "A")], .post [("id", .obj [("toString", .num 1)])]]
        = { students := [[("id", .num 1), ("name", .str "A")],
              [("id", .obj [("toString", .num 1)])]], idCounter := 3 }
      ∧ matchesId "1" [("id", .num 1), ("name", .str "A")] = .ok true
      ∧ deleteStudent
          (run initialStore
            [.post [("name", .str "A")], .post [("id", .obj [("toString", .num 1)])]]) "1"
        = ({ students := [[("id", .num 1), ("name", .str "A")],
              [("id", .obj [("toString", .num 1)])]], idCounter := 3 },
            .uncaught .typeError)
      ∧ [("id", JVal.num 1), ("name", JVal.str "A")]
          ∈ (deleteStudent
              (run initialStore
                [.post [("name", .str "A")], .post [("id", .obj [("toString", .num 1)])]])
              "1").1.students := by
  refine ⟨rfl, rfl, rfl, ?_⟩
  show [("id", JVal.num 1), ("name", JVal.str "A")]
    ∈ [[("id", JVal.num 1), ("name", JVal.str "A")], [("id", JVal.obj [("toString", .num 1)])]]
  exact List.mem_cons_self _ _

/-- Delete on stores whose ids can be compared: `DELETE /students/x` never
changes `idCounter`, and whenever every comparison of a stored `id` with `x`
completes, as it does when every stored `id` is a number, a string, a boolean
or `null`, the collection afterwards is the old one filtered by "does not
match `x`": every matching record is removed, however many there are, and the
other records stay, in their original relative order. -/
theorem delete_removes_exactly_matching (st : Store) (x : String) :
    (deleteStudent st x).1.idCounter = st.idCounter
      ∧ ((∀ s ∈ st.students, ∃ b, matchesId x s = .ok b) →
          (deleteStudent st x).1.students = st.students.filter (fun s => !isMatch x s)
            ∧ (∀ s, s ∈ (deleteStudent st x).1.students
                ↔ s ∈ st.students ∧ matchesId x s = .ok false)
            ∧ (deleteStudent st x).1.students.Sublist st.students)
      ∧ ((∀ s ∈ st.students, ∃ v, getProp s "id" = some v ∧ v.isPrimitive = true) →
          (deleteStudent st x).1.students = st.students.filter (fun s => !isMatch x s))
      ∧ ((∃ s ∈ st.students, ∃ e, matchesId x s = .error e) →
          (deleteStudent st x).1 = st) := by
  have hmain : (∀ s ∈ st.students, ∃ b, matchesId x s = .ok b) →
      (deleteStudent st x).1.students = st.students.filter (fun s => !isMatch x s) := by
    intro hall
    rw [deleteStudent_students_of_completes st x hall]
  refine ⟨deleteStudent_idCounter st x, ?_, ?_, ?_⟩
  · intro hall
    have heq := hmain hall
    refine ⟨heq, ?_, ?_⟩
    · intro s
      rw [heq, List.mem_filter]
      constructor
      · rintro ⟨hs, hm⟩
        refine ⟨hs, ?_⟩
        obtain ⟨b, hb⟩ := hall s hs
        cases b with
        | false => exact hb
        | true =>
          have := (isMatch_eq_true_iff x s).mpr hb
          simp [this] at hm
      · rintro ⟨hs, hm⟩
        refine ⟨hs, ?_⟩
        have : isMatch x s = false := by
          cases hi : isMatch x s with
          | false => rfl
          | true =>
            have := (isMatch_eq_true_iff x s).mp hi
            rw [hm] at this
            simp at this
        simp [this]
    · rw [heq]
      exact List.filter_sublist _
  · intro hprim
    exact hmain (completes_of_primitive_ids _ x hprim)
  · rintro ⟨s, hs, e, he⟩
    have : ∃ e', filter (differsId x) st.students = .error e' :=
      (filter_error_iff _ _).mpr ⟨s, hs, e, (differsId_error_iff x s e).mpr he⟩
    obtain ⟨e', he'⟩ := this
    simp [deleteStudent, he']

/-- Delete at the store `[{id: 1, name: "A"}, {id: 2, name: "B"}, {id: 1, name: "C"}]`:
`DELETE /students/1` removes both records whose id is 1 and keeps
`{id: 2, name: "B"}`. -/
theorem delete_removes_exactly_matching_witness :
    (∀ s ∈ [[("id", JVal.num 1), ("name", JVal.str "A")],
          [("id", JVal.num 2), ("name", JVal.str "B")],
          [("id", JVal.num 1), ("name", JVal.str "C")]],
        ∃ v, getProp s "id" = some v ∧ v.isPrimitive = true)
      ∧ (deleteStudent
          { students := [[("id", .num 1), ("name", .str "A")],
              [("id", .num 2), ("name", .str "B")],
              [("id", .num 1), ("name", .str "C")]], idCounter := 4 } "1").1.students
        = [[("id", .num 2), ("name", .str "B")]] := by
  have hprim : ∀ s ∈ [[("id", JVal.num 1), ("name", JVal.str "A")],
      [("id", JVal.num 2), ("name", JVal.str "B")],
      [("id", JVal.num 1), ("name", JVal.str "C")]],
      ∃ v, getProp s "id" = some v ∧ v.isPrimitive = true := by
    intro s hs
    simp only [List.mem_cons, List.mem_singleton, List.not_mem_nil, or_false] at hs
    rcases hs with rfl | rfl | rfl <;> exact ⟨_, rfl, rfl⟩
  exact ⟨hprim,
    ((delete_removes_exactly_matching
      { students := [[("id", .num 1), ("name", .str "A")],
          [("id", .num 2), ("name", .str "B")],
          [("id", .num 1), ("name", .str "C")]], idCounter := 4 } "1").2.2.1 hprim).trans rfl⟩

/-- C18: in the store reached by `POST {name: "A"}` and
`POST {id: {toString: 1}}`, `DELETE /students/1` throws and removes nothing, and
afterwards `GET /students/1` and `PUT /students/1` answer 200, not 404. -/
theorem lookup_after_failed_delete_finds_record :
    (getStudent
        (deleteStudent
          (run initialStore
            [.post [("name", .str "A")], .post [("id", .obj [("toString", .num 1)])]])
          "1").1 "1").2
        = .json 200 (.obj [("id", .num 1), ("name", .str "A")])
      ∧ (putStudent
        (deleteStudent
          (run initialStore
            [.post [("name", .str "A")], .post [("id", .obj [("toString", .num 1)])]])
          "1").1 "1" [("name", .str "B")]).2
        = .json 200 (.obj [("id", .num 1), ("name", .str "B")])
      ∧ (getStudent
        (deleteStudent
          (run initialStore
            [.post [("name", .str "A")], .post [("id", .obj [("toString", .num 1)])]])
          "1").1 "1").2.status ≠ 404 := by
  refine ⟨rfl, rfl, ?_⟩
  show (200 : Nat) ≠ 404
  decide

/-- Lookup after delete on stores whose ids can be compared: whenever every
comparison of a stored `id` with `x` completes (as it does when every stored
`id` is a number, a string, a boolean or `null`), also in stores holding
several records that match, `DELETE /students/x` leaves no record that matches
`x`, so that `GET /students/x` and `PUT /students/x` with any body answer 404
`Not Found` right afterwards and change nothing. -/
theorem lookup_after_delete_not_found (st : Store) (x : String) :
    ((∀ s ∈ st.students, ∃ b, matchesId x s = .ok b) →
        (∀ s ∈ (deleteStudent st x).1.students, matchesId x s = .ok false)
          ∧ getStudent (deleteStudent st x).1 x
              = ((deleteStudent st x).1, .send 404 "Not Found")
          ∧ ∀ body, putStudent (deleteStudent st x).1 x body
              = ((deleteStudent st x).1, .send 404 "Not Found"))
      ∧ ((∀ s ∈ st.students, ∃ v, getProp s "id" = some v ∧ v.isPrimitive = true) →
        getStudent (deleteStudent st x).1 x = ((deleteStudent st x).1, .send 404 "Not Found")
          ∧ ∀ body, putStudent (deleteStudent st x).1 x body
              = ((deleteStudent st x).1, .send 404 "Not Found")) := by
  have hmain : (∀ s ∈ st.students, ∃ b, matchesId x s = .ok b) →
      (∀ s ∈ (deleteStudent st x).1.students, matchesId x s = .ok false)
        ∧ getStudent (deleteStudent st x).1 x
            = ((deleteStudent st x).1, .send 404 "Not Found")
        ∧ ∀ body, putStudent (deleteStudent st x).1 x body
            = ((deleteStudent st x).1, .send 404 "Not Found") := by
    intro hall
    have hno : ∀ s ∈ (deleteStudent st x).1.students, matchesId x s = .ok false := by
      intro s hs
      rw [deleteStudent_students_of_completes st x hall] at hs
      have hs' := List.mem_filter.mp hs
      obtain ⟨b, hb⟩ := hall s hs'.1
      cases b with
      | false => exact hb
      | true =>
        have := (isMatch_eq_true_iff x s).mpr hb
        have h2 := hs'.2
        simp [this] at h2
    refine ⟨hno, ?_, ?_⟩
    · have := find_none_of_all_false _ _ hno
      simp [getStudent, this]
    · intro body
      have := findIndex_none_of_all_false _ _ hno
      simp [putStudent, this]
  refine ⟨hmain, ?_⟩
  intro hprim
  exact (hmain (completes_of_primitive_ids _ x hprim)).2

/-- Lookup after delete at the store `[{id: 1, name: "A"}, {id: 2, name: "B"}, {id: 1, name: "C"}]`,
which holds two records matching `1`: after `DELETE /students/1` both
`GET /students/1` and `PUT /students/1` answer 404 `Not Found`. -/
theorem lookup_after_delete_not_found_witness :
    (∀ s ∈ [[("id", JVal.num 1), ("name", JVal.str "A")],
          [("id", JVal.num 2), ("name", JVal.str "B")],
          [("id", JVal.num 1), ("name", JVal.str "C")]],
        ∃ v, getProp s "id" = some v ∧ v.isPrimitive = true)
      ∧ (getStudent (deleteStudent
          { students := [[("id", .num 1), ("name", .str "A")],
              [("id", .num 2), ("name", .str "B")],
              [("id", .num 1), ("name", .str "C")]], idCounter := 4 } "1").1 "1").2
        = .send 404 "Not Found"
      ∧ (putStudent (deleteStudent
          { students := [[("id", .num 1), ("name", .str "A")],
              [("id", .num 2), ("name", .str "B")],
              [("id", .num 1), ("name", .str "C")]], idCounter := 4 } "1").1 "1"
          [("name", .str "Z")]).2
        = .send 404 "Not Found" := by
  have hprim : ∀ s ∈ [[("id", JVal.num 1), ("name", JVal.str "A")],
      [("id", JVal.num 2), ("name", JVal.str "B")],
      [("id", JVal.num 1), ("name", JVal.str "C")]],
      ∃ v, getProp s "id" = some v ∧ v.isPrimitive = true := by
    intro s hs
    simp only [List.mem_cons, List.mem_singleton, List.not_mem_nil, or_false] at hs
    rcases hs with rfl | rfl | rfl <;> exact ⟨_, rfl, rfl⟩
  have h := (lookup_after_delete_not_found
      { students := [[("id", .num 1), ("name", .str "A")],
          [("id", .num 2), ("name", .str "B")],
          [("id", .num 1), ("name", .str "C")]], idCounter := 4 } "1").2 hprim
  exact ⟨hprim, by rw [h.1], by rw [h.2]⟩

/-! ## Creation order -/

theorem map_snd_replaceRecord (ts : List (Nat × JObj)) (i : Nat) (r : JObj) :
    (replaceRecord ts i r).map Prod.snd = (ts.map Prod.snd).set i r := by
  induction ts generalizing i with
  | nil => simp [replaceRecord]
  | cons h t ih =>
    obtain ⟨n, s⟩ := h
    cases i with
    | zero => simp [replaceRecord]
    | succ j => simp [replaceRecord, ih]

theorem map_fst_replaceRecord (ts : List (Nat × JObj)) (i : Nat) (r : JObj) :
    (replaceRecord ts i r).map Prod.fst = ts.map Prod.fst := by
  induction ts generalizing i with
  | nil => simp [replaceRecord]
  | cons h t ih =>
    obtain ⟨n, s⟩ := h
    cases i with
    | zero => simp [replaceRecord]
    | succ j => simp [replaceRecord, ih]

theorem matchesId_of_differsId (x : String) (s : JObj) (b : Bool)
    (h : differsId x s = .ok b) : matchesId x s = .ok (!b) := by
  unfold differsId at h
  unfold matchesId
  cases hl : looseEq (getProp s "id") x with
  | error e => simp [hl] at h
  | ok c =>
    simp only [hl, Except.ok.injEq] at h
    subst h
    simp

theorem completes_of_filter_ok (x : String) (l kept : List JObj)
    (h : filter (differsId x) l = .ok kept) : ∀ s ∈ l, ∃ b, matchesId x s = .ok b := by
  intro s hs
  obtain ⟨b, hb⟩ := (filter_eq_list_filter _ _ _ h).2 s hs
  exact ⟨!b, matchesId_of_differsId x s b hb⟩

theorem deleteStudent_sublist (st : Store) (x : String) :
    (deleteStudent st x).1.students.Sublist st.students := by
  rcases deleteStudent_cases st x with ⟨kept, hkept, hdel⟩ | ⟨e, _, hdel⟩
  · rw [hdel, (filter_eq_list_filter _ _ _ hkept).1]
    exact List.filter_sublist _
  · rw [hdel]

/-- The bookkeeping agrees with the store: same records in the same order,
stamps strictly increasing and below the counter. -/
theorem stampedStep_invariant (st : Store) (ts : List (Nat × JObj)) (r : Request)
    (hrec : ts.map Prod.snd = st.students)
    (hsorted : (ts.map Prod.fst).Pairwise (· < ·))
    (hbound : ∀ n ∈ ts.map Prod.fst, n < st.idCounter) :
    (stampedStep st ts r).map Prod.snd = (handle st r).1.students
      ∧ ((stampedStep st ts r).map Prod.fst).Pairwise (· < ·)
      ∧ ∀ n ∈ (stampedStep st ts r).map Prod.fst, n < (handle st r).1.idCounter := by
  cases r with
  | post body =>
    refine ⟨?_, ?_, ?_⟩
    · simp [stampedStep, handle, postStudents, hrec]
    · simp only [stampedStep, List.map_append, List.map_cons, List.map_nil]
      rw [List.pairwise_append]
      refine ⟨hsorted, by simp, ?_⟩
      intro a ha b hb
      simp only [List.mem_singleton] at hb
      subst hb
      exact hbound a ha
    · intro n hn
      simp only [stampedStep, List.map_append, List.map_cons, List.map_nil, List.mem_append,
        List.mem_singleton] at hn
      show n < st.idCounter + 1
      rcases hn with hn | hn
      · have := hbound n hn
        omega
      · omega
  | getAll => exact ⟨hrec, hsorted, hbound⟩
  | getOne x =>
    have hst : (handle st (.getOne x)).1 = st := getStudent_store st x
    rw [hst]
    exact ⟨hrec, hsorted, hbound⟩
  | put x body =>
    rcases putStudent_cases st x body with ⟨i, hi, h⟩ | ⟨hi, h⟩ | ⟨e, hi, h⟩
    · have hstep : stampedStep st ts (.put x body)
          = replaceRecord ts i (spread [("id", parseInt x)] body) := by
        simp [stampedStep, hi]
      have hh : handle st (.put x body) = putStudent st x body := rfl
      rw [hstep, hh, h, map_snd_replaceRecord, map_fst_replaceRecord, hrec]
      exact ⟨rfl, hsorted, hbound⟩
    · have hstep : stampedStep st ts (.put x body) = ts := by
        simp [stampedStep, hi]
      have hh : handle st (.put x body) = putStudent st x body := rfl
      rw [hstep, hh, h]
      exact ⟨hrec, hsorted, hbound⟩
    · have hstep : stampedStep st ts (.put x body) = ts := by
        simp [stampedStep, hi]
      have hh : handle st (.put x body) = putStudent st x body := rfl
      rw [hstep, hh, h]
      exact ⟨hrec, hsorted, hbound⟩
  | delete x =>
    have hh : handle st (.delete x) = deleteStudent st x := rfl
    rcases deleteStudent_cases st x with ⟨kept, hkept, hdel⟩ | ⟨e, he, hdel⟩
    · have hstep : stampedStep st ts (.delete x) = ts.filter (fun t => !isMatch x t.2) := by
        simp [stampedStep, hkept]
      have hall := completes_of_filter_ok x _ _ hkept
      have hsub : (ts.filter (fun t => !isMatch x t.2)).Sublist ts := List.filter_sublist _
      rw [hstep, hh, deleteStudent_students_of_completes st x hall]
      refine ⟨?_, ?_, ?_⟩
      · show _ = st.students.filter (fun s => !isMatch x s)
        rw [← hrec, List.filter_map]
        rfl
      · exact List.Pairwise.sublist (hsub.map Prod.fst) hsorted
      · intro n hn
        exact hbound n ((hsub.map Prod.fst).subset hn)
    · have hstep : stampedStep st ts (.delete x) = ts := by
        simp [stampedStep, he]
      rw [hstep, hh, hdel]
      exact ⟨hrec, hsorted, hbound⟩

theorem stampedRun_invariant (rs : List Request) (st : Store) (ts : List (Nat × JObj))
    (hrec : ts.map Prod.snd = st.students)
    (hsorted : (ts.map Prod.fst).Pairwise (· < ·))
    (hbound : ∀ n ∈ ts.map Prod.fst, n < st.idCounter) :
    (stampedRun st ts rs).map Prod.snd = (run st rs).students
      ∧ ((stampedRun st ts rs).map Prod.fst).Pairwise (· < ·) := by
  induction rs generalizing st ts with
  | nil => exact ⟨hrec, hsorted⟩
  | cons r rs ih =>
    obtain ⟨h1, h2, h3⟩ := stampedStep_invariant st ts r hrec hsorted hbound
    exact ih _ _ h1 h2 h3

/-- C12: after any request sequence from the initial store, `GET /students`
answers 200 with the stored records as they stand, and these are the records
of the creation bookkeeping in the same order, whose creation stamps are
strictly increasing: the survivors are listed in the order of their creation.
Step by step: a create appends its record at the end, an update rewrites at
most one position and leaves every record where it is, a delete keeps the
remaining records in their relative order, and listing changes nothing. -/
theorem list_in_creation_order (rs : List Request) :
    (getStudents (run initialStore rs)).2
        = .json 200 (.arr (((stampedRun initialStore [] rs).map Prod.snd).map JVal.obj))
      ∧ ((stampedRun initialStore [] rs).map Prod.fst).Pairwise (· < ·)
      ∧ (getStudents (run initialStore rs)).1 = run initialStore rs
      ∧ (∀ st body, (postStudents st body).1.students
          = st.students ++ [spread [("id", .num st.idCounter)] body])
      ∧ (∀ st x body, ∃ index student,
          (putStudent st x body).1.students = st.students.set index student)
      ∧ (∀ st x, (deleteStudent st x).1.students.Sublist st.students) := by
  obtain ⟨h1, h2⟩ := stampedRun_invariant rs initialStore [] rfl (by simp) (by simp)
  refine ⟨?_, h2, rfl, fun _ _ => rfl, ?_, deleteStudent_sublist⟩
  · rw [h1]
    rfl
  · intro st x body
    rcases putStudent_cases st x body with ⟨i, _, h⟩ | ⟨_, h⟩ | ⟨e, _, h⟩
    · exact ⟨i, _, by rw [h]⟩
    · refine ⟨st.students.length, [], ?_⟩
      rw [h, List.set_eq_of_length_le (Nat.le_refl _)]
    · refine ⟨st.students.length, [], ?_⟩
      rw [h, List.set_eq_of_length_le (Nat.le_refl _)]

/-! ## Rounding to a double -/

theorem roundHalfEven_mul (c b : Nat) (hb : 0 < b) : roundHalfEven (c * b) b = c := by
  unfold roundHalfEven
  have hq : c * b / b = c := Nat.mul_div_cancel c hb
  have hr : c * b % b = 0 := Nat.mul_mod_left c b
  simp only [hq, hr, Nat.mul_zero, hb, if_true]

theorem bitLength_spec (fuel n acc : Nat) (h : n ≤ fuel) :
    ∃ k, bitLength fuel n acc = acc + k ∧ n < 2 ^ k ∧ (n = 0 → k = 0)
      ∧ (n ≠ 0 → 2 ^ (k - 1) ≤ n) := by
  induction fuel generalizing n acc with
  | zero =>
    have hn : n = 0 := Nat.le_zero.mp h
    subst hn
    exact ⟨0, rfl, by decide, fun _ => rfl, fun h0 => absurd rfl h0⟩
  | succ f ih =>
    by_cases hn : n = 0
    · subst hn
      exact ⟨0, by simp [bitLength], by decide, fun _ => rfl, fun h0 => absurd rfl h0⟩
    · have hhalf : n / 2 ≤ f := by omega
      obtain ⟨k, hk, hlt, hzero, hge⟩ := ih (n / 2) (acc + 1) hhalf
      refine ⟨k + 1, ?_, ?_, fun h0 => absurd h0 hn, fun _ => ?_⟩
      · simp only [bitLength, hn, if_false, hk]
        omega
      · have : 2 ^ (k + 1) = 2 * 2 ^ k := by rw [pow_succ]; omega
        omega
      · show 2 ^ k ≤ n
        by_cases hh : n / 2 = 0
        · have hk0 := hzero hh
          subst hk0
          simp only [pow_zero]
          omega
        · have h1 := hge hh
          have hkpos : k ≠ 0 := by
            intro hk0
            subst hk0
            simp only [pow_zero] at hlt
            omega
          have : 2 ^ k = 2 * 2 ^ (k - 1) := by
            obtain ⟨j, rfl⟩ := Nat.exists_eq_succ_of_ne_zero hkpos
            simp only [Nat.succ_sub_one, pow_succ]
            omega
          omega

theorem lt_two_pow_bits (n : Nat) : n < 2 ^ bits n := by
  obtain ⟨k, hk, hlt, _, _⟩ := bitLength_spec n n 0 (Nat.le_refl n)
  unfold bits
  rw [hk, Nat.zero_add]
  exact hlt

theorem two_pow_bits_le (n : Nat) (hn : n ≠ 0) : 2 ^ (bits n - 1) ≤ n := by
  obtain ⟨k, hk, _, _, hge⟩ := bitLength_spec n n 0 (Nat.le_refl n)
  unfold bits
  rw [hk, Nat.zero_add]
  exact hge hn

/-- For a quotient below `2 ^ 53` the last place of the nearest double is at
most the unit. -/
theorem ulpExponent_nonpos (a b : Nat) (ha : a ≠ 0) (hlt : a < 2 ^ 53 * b) :
    ulpExponent a b ≤ 0 := by
  have hA := two_pow_bits_le a ha
  have hB := lt_two_pow_bits b
  have hbits : bits a ≤ 53 + bits b := by
    by_contra hcon
    have h54 : 53 + bits b ≤ bits a - 1 := by omega
    have h1 : 2 ^ (53 + bits b) ≤ 2 ^ (bits a - 1) := Nat.pow_le_pow_right (by decide) h54
    have h2 : 2 ^ 53 * b < 2 ^ 53 * 2 ^ bits b :=
      mul_lt_mul_of_pos_left hB (by positivity)
    rw [← pow_add] at h2
    omega
  unfold ulpExponent
  simp only
  by_cases hl : (bits a : Int) - (bits b : Int) ≤ 52
  · split <;> omega
  · have hl53 : (bits a : Int) - (bits b : Int) = 53 := by omega
    have hnot : ¬ (b * 2 ^ 53 ≤ a) := by
      rw [Nat.mul_comm]
      omega
    simp only [hl53, show (0 : Int) ≤ 53 by decide, if_true, show (53 : Int).toNat = 53 by rfl,
      hnot, decide_False, Bool.false_eq_true, if_false]
    decide

/-- Rounding is exact on integers below `2 ^ 53`: the double nearest to
`± (c * b) / b` equals the integer `n` exactly when `± c` is `n`. -/
theorem roundToDouble_eqInt_exact (neg : Bool) (c b : Nat) (n : Int) (hb : 0 < b)
    (hc : c < 2 ^ 53) :
    (roundToDouble neg (c * b) b).eqInt n = true
      ↔ (if neg then -(c : Int) else (c : Int)) = n := by
  by_cases hc0 : c = 0
  · subst hc0
    simp only [roundToDouble, Nat.zero_mul, if_true, Double.eqInt, Int.le_refl,
      Int.toNat_zero, pow_zero, Int.mul_one, decide_eq_true_eq, Nat.cast_zero, Int.neg_zero]
  · have ha : c * b ≠ 0 := Nat.mul_ne_zero hc0 (Nat.pos_iff_ne_zero.mp hb)
    have hlt : c * b < 2 ^ 53 * b := Nat.mul_lt_mul_of_pos_right hc hb
    have hE := ulpExponent_nonpos (c * b) b ha hlt
    unfold roundToDouble
    simp only [ha, if_false]
    have hover : ¬ (971 < ulpExponent (c * b) b ∨ (ulpExponent (c * b) b = 971 ∧
        2 ^ 53 ≤ (if 0 ≤ ulpExponent (c * b) b
          then roundHalfEven (c * b) (b * 2 ^ (ulpExponent (c * b) b).toNat)
          else roundHalfEven (c * b * 2 ^ (-ulpExponent (c * b) b).toNat) b))) := by
      rintro (h | ⟨h, _⟩) <;> omega
    rw [if_neg hover]
    by_cases hE0 : 0 ≤ ulpExponent (c * b) b
    · have hEz : ulpExponent (c * b) b = 0 := by omega
      simp only [hEz, Int.le_refl, if_true, Int.toNat_zero, pow_zero, Nat.mul_one,
        roundHalfEven_mul c b hb, Double.eqInt, Int.mul_one, decide_eq_true_eq]
    · obtain ⟨k, hk⟩ : ∃ k : Nat, (-ulpExponent (c * b) b).toNat = k := ⟨_, rfl⟩
      have hm : roundHalfEven (c * b * 2 ^ k) b = c * 2 ^ k := by
        have : c * b * 2 ^ k = (c * 2 ^ k) * b := by ring
        rw [this]
        exact roundHalfEven_mul _ b hb
      simp only [hE0, if_false, hk, hm, Double.eqInt, decide_eq_true_eq]
      have hpow : (2 : Int) ^ k ≠ 0 := pow_ne_zero _ (by decide)
      cases neg with
      | true =>
        simp only [if_true]
        push_cast
        constructor
        · intro h
          have h' : (-(c : Int)) * 2 ^ k = n * 2 ^ k := by rw [← h]; ring
          exact Int.eq_of_mul_eq_mul_right hpow h'
        · intro h
          rw [← h]
          ring
      | false =>
        simp only [Bool.false_eq_true, if_false]
        push_cast
        constructor
        · intro h
          exact Int.eq_of_mul_eq_mul_right hpow h
        · intro h
          rw [← h]

theorem fin_toNumber_of_eqInt (m : Nat) (e n : Int)
    (hdiv : e < 0 → 2 ^ (-e).toNat ∣ m)
    (h : (Double.fin false m e).eqInt n = true) :
    (Double.fin false m e).toNumber = .num n := by
  by_cases he : 0 ≤ e
  · simp only [Double.eqInt, he, if_true, Bool.false_eq_true, if_false,
      decide_eq_true_eq] at h
    simp only [Double.toNumber, he, if_true, Bool.false_eq_true, if_false]
    rw [← h]
    push_cast
    rfl
  · simp only [Double.eqInt, he, if_false, Bool.false_eq_true, decide_eq_true_eq] at h
    simp only [Double.toNumber, he, if_false, Bool.false_eq_true]
    obtain ⟨w, hw⟩ := hdiv (by omega)
    have hpos : 0 < 2 ^ (-e).toNat := by positivity
    have hquot : m / 2 ^ (-e).toNat = w := by
      rw [hw]
      exact Nat.mul_div_cancel_left w hpos
    have hpow : (2 : Int) ^ (-e).toNat ≠ 0 := pow_ne_zero _ (by decide)
    have hwn : (w : Int) = n := by
      have h' : (w : Int) * 2 ^ (-e).toNat = n * 2 ^ (-e).toNat := by
        rw [← h, hw]
        push_cast
        ring
      exact Int.eq_of_mul_eq_mul_right hpow h'
    rw [hquot, hwn]

theorem roundToDouble_nat_shape (v : Nat) :
    roundToDouble false v 1 = .inf false
      ∨ ∃ m e, roundToDouble false v 1 = .fin false m e ∧ (e < 0 → 2 ^ (-e).toNat ∣ m) := by
  unfold roundToDouble
  by_cases hv : v = 0
  · refine Or.inr ⟨0, 0, by simp [hv], fun h => absurd h (by decide)⟩
  · simp only [hv, if_false]
    generalize ulpExponent v 1 = e
    generalize hm : (if 0 ≤ e then roundHalfEven v (1 * 2 ^ e.toNat)
      else roundHalfEven (v * 2 ^ (-e).toNat) 1) = m
    by_cases hover : 971 < e ∨ (e = 971 ∧ 2 ^ 53 ≤ m)
    · exact Or.inl (if_pos hover)
    · refine Or.inr ⟨m, e, if_neg hover, ?_⟩
      intro he
      have hneg : ¬ (0 ≤ e) := by omega
      rw [if_neg hneg] at hm
      have := roundHalfEven_mul (v * 2 ^ (-e).toNat) 1 (by decide)
      rw [Nat.mul_one] at this
      rw [← hm, this]
      exact Dvd.intro_left v rfl

/-- When the double nearest to a natural number equals the integer `n`, the
number `parseInt` returns for it is `n`. -/
theorem toNumber_of_eqInt (v : Nat) (n : Int)
    (h : (roundToDouble false v 1).eqInt n = true) :
    (roundToDouble false v 1).toNumber = .num n := by
  rcases roundToDouble_nat_shape v with hinf | ⟨m, e, hfin, hdiv⟩
  · rw [hinf] at h
    simp [Double.eqInt] at h
  · rw [hfin] at h ⊢
    exact fin_toNumber_of_eqInt m e n hdiv h

theorem toDouble_fin_nat (v : Nat) :
    (StrNum.fin (v : Int) 0).toDouble = roundToDouble false v 1 := by
  have hneg : ¬ ((v : Int) < 0) := by omega
  simp [StrNum.toDouble, hneg]

/-! ## Sample conversions -/

/-- Rounding to the nearest double, ties to even: `2 ^ 53 + 1` goes down to
`2 ^ 53`, `2 ^ 53 + 3` goes up to `2 ^ 53 + 4`, `0.1` becomes
`7205759403792794 * 2 ^ (-56)`, and `10e-1` is the integer 1. -/
theorem roundToDouble_samples :
    nearestDouble 9007199254740993 = some 9007199254740992
      ∧ nearestDouble 9007199254740995 = some 9007199254740996
      ∧ (StrNum.fin 1 (-1)).toDouble = .fin false 7205759403792794 (-56)
      ∧ (StringToNumber "10e-1").eqInt 1 = true
      ∧ (StringToNumber "9007199254740993").eqInt 9007199254740992 = true
      ∧ parseInt "9007199254740993" = .num 9007199254740992 := by
  refine ⟨rfl, rfl, rfl, rfl, rfl, rfl⟩

/-- Printing of integer-valued doubles: plain digits below `10 ^ 21`, with the
shortest digits that read back as the same double, and exponent notation from
`10 ^ 21` on. -/
theorem numToString_samples :
    numToString 42 = "42"
      ∧ numToString (-7) = "-7"
      ∧ numToString 9007199254740992 = "9007199254740992"
      ∧ numToString 18446744073709551616 = "18446744073709552000"
      ∧ numToString 1000000000000000000000 = "1e+21"
      ∧ numToString 1180591620717411303424 = "1.1805916207174113e+21"
      ∧ looseEq (some (.arr [.num 1000000000000000000000])) "1e+21" = .ok true := by
  refine ⟨rfl, rfl, rfl, rfl, rfl, rfl, rfl⟩

/-! ## Decimal numerals -/

theorem radixDigit_of_digit (c : Char) (h : 48 ≤ c.toNat ∧ c.toNat ≤ 57) :
    radixDigit 10 c = some (c.toNat - 48) := by
  have h2 : c.toNat - 48 < 10 := by omega
  simp [radixDigit, h, h2]

theorem isStrWhiteSpace_of_digit (c : Char) (h : 48 ≤ c.toNat ∧ c.toNat ≤ 57) :
    isStrWhiteSpace c = false := by
  have h1 := h.1
  have h2 := h.2
  simp only [isStrWhiteSpace, Bool.or_eq_false_iff, Bool.and_eq_false_iff, beq_eq_false_iff_ne,
    decide_eq_false_iff_not, ne_eq]
  omega

theorem spanDigits_of_digits (cs : List Char) (h : ∀ c ∈ cs, 48 ≤ c.toNat ∧ c.toNat ≤ 57) :
    spanDigits 10 cs = (cs.map (fun c => c.toNat - 48), []) := by
  induction cs with
  | nil => rfl
  | cons c t ih =>
    have hc := radixDigit_of_digit c (h c (List.mem_cons_self _ _))
    have ht := ih (fun c' hc' => h c' (List.mem_cons_of_mem _ hc'))
    simp [spanDigits, hc, ht]

theorem digitsValue_of_digits (cs : List Char) :
    digitsValue 10 (cs.map (fun c => c.toNat - 48))
      = cs.foldl (fun acc c => 10 * acc + (c.toNat - 48)) 0 := by
  unfold digitsValue
  rw [List.foldl_map]
  congr 1
  funext acc c
  omega

theorem digits_of_isDecimalNumeral (x : String) (h : isDecimalNumeral x = true) :
    (∃ c cs, x.toList = c :: cs) ∧ ∀ c ∈ x.toList, 48 ≤ c.toNat ∧ c.toNat ≤ 57 := by
  unfold isDecimalNumeral at h
  simp only [Bool.and_eq_true, Bool.not_eq_true', List.all_eq_true, decide_eq_true_eq] at h
  refine ⟨?_, h.2⟩
  cases hx : x.toList with
  | nil =>
    have h1 := h.1
    rw [hx] at h1
    simp at h1
  | cons c cs => exact ⟨c, cs, rfl⟩

theorem trim_of_digits (cs : List Char) (h : ∀ c ∈ cs, 48 ≤ c.toNat ∧ c.toNat ≤ 57) :
    trimStart cs = cs ∧ trimEnd cs = cs := by
  have hdrop : ∀ l : List Char, (∀ c ∈ l, 48 ≤ c.toNat ∧ c.toNat ≤ 57) →
      l.dropWhile isStrWhiteSpace = l := by
    intro l hl
    cases l with
    | nil => rfl
    | cons c t =>
      have := isStrWhiteSpace_of_digit c (hl c (List.mem_cons_self _ _))
      simp [List.dropWhile, this]
  refine ⟨hdrop cs h, ?_⟩
  unfold trimEnd
  rw [hdrop cs.reverse (fun c hc => h c (List.mem_reverse.mp hc)), List.reverse_reverse]


theorem StringToNumber_of_isDecimalNumeral (x : String) (h : isDecimalNumeral x = true) :
    StringToNumber x = .fin (numeralValue x) 0 := by
  obtain ⟨⟨c, cs, hx⟩, hd⟩ := digits_of_isDecimalNumeral x h
  have htrim := trim_of_digits x.toList hd
  have hspan := spanDigits_of_digits x.toList hd
  have hval := digitsValue_of_digits x.toList
  unfold StringToNumber
  rw [htrim.1, htrim.2]
  split
  · rename_i heq
    rw [hx] at heq
    simp at heq
  · rename_i heq
    exact absurd (hd 'x' (by rw [heq]; simp)) (by decide)
  · rename_i heq
    exact absurd (hd 'X' (by rw [heq]; simp)) (by decide)
  · rename_i heq
    exact absurd (hd 'o' (by rw [heq]; simp)) (by decide)
  · rename_i heq
    exact absurd (hd 'O' (by rw [heq]; simp)) (by decide)
  · rename_i heq
    exact absurd (hd 'b' (by rw [heq]; simp)) (by decide)
  · rename_i heq
    exact absurd (hd 'B' (by rw [heq]; simp)) (by decide)
  · rename_i heq
    exact absurd (hd '+' (by rw [heq]; simp)) (by decide)
  · rename_i heq
    exact absurd (hd '-' (by rw [heq]; simp)) (by decide)
  · have hinf : ¬ x.toList = ['I', 'n', 'f', 'i', 'n', 'i', 't', 'y'] := by
      intro he
      exact absurd (hd 'I' (by rw [he]; simp)) (by decide)
    unfold parseUnsignedDecimal
    rw [if_neg hinf]
    simp only [hspan]
    have hne : (List.map (fun c => c.toNat - 48) x.toList).isEmpty = false := by
      rw [hx]
      rfl
    simp only [hne, Bool.false_eq_true, if_false, parseExponent]
    rw [hval]
    rfl

theorem parseInt_of_isDecimalNumeral (x : String) (h : isDecimalNumeral x = true) :
    parseInt x = (roundToDouble false (numeralValue x) 1).toNumber := by
  obtain ⟨⟨c, cs, hx⟩, hd⟩ := digits_of_isDecimalNumeral x h
  have htrim := trim_of_digits x.toList hd
  have hspan := spanDigits_of_digits x.toList hd
  have hval := digitsValue_of_digits x.toList
  have hsigned : (match trimStart x.toList with
      | '-' :: r => (true, r)
      | '+' :: r => (false, r)
      | r => (false, r)) = (false, x.toList) := by
    rw [htrim.1]
    split
    · rename_i heq
      exact absurd (hd '-' (by rw [heq]; simp)) (by decide)
    · rename_i heq
      exact absurd (hd '+' (by rw [heq]; simp)) (by decide)
    · rfl
  have hbased : (match x.toList with
      | '0' :: 'x' :: r => (16, r)
      | '0' :: 'X' :: r => (16, r)
      | r => (10, r)) = (10, x.toList) := by
    split
    · rename_i heq
      exact absurd (hd 'x' (by rw [heq]; simp)) (by decide)
    · rename_i heq
      exact absurd (hd 'X' (by rw [heq]; simp)) (by decide)
    · rfl
  unfold parseInt
  simp only [hsigned, hbased, hspan]
  rw [hx]
  have hv : digitsValue 10 ((c.toNat - 48) :: List.map (fun c => c.toNat - 48) cs)
      = numeralValue x := by
    have h' := hval
    rw [hx, List.map_cons] at h'
    rw [h']
    unfold numeralValue
    rw [hx]
  simp only [List.map_cons, hv]

/-! ## Well-formed requests -/

theorem matchesId_of_num (x : String) (s : JObj) (n : Int)
    (h : getProp s "id" = some (.num n)) :
    matchesId x s = .ok ((StringToNumber x).eqInt n) := by
  unfold matchesId
  rw [h]
  rfl

theorem eqInt_fin_zero_of_lt (v : Nat) (n : Int) (hv : v < 2 ^ 53) :
    (StrNum.fin v 0).eqInt n = true ↔ (v : Int) = n := by
  unfold StrNum.eqInt
  rw [toDouble_fin_nat]
  have h := roundToDouble_eqInt_exact false v 1 n (by decide) hv
  rw [Nat.mul_one] at h
  simpa using h

theorem toNumber_of_eqInt_fin_zero (v : Nat) (n : Int)
    (h : (StrNum.fin v 0).eqInt n = true) :
    (roundToDouble false v 1).toNumber = .num n := by
  unfold StrNum.eqInt at h
  rw [toDouble_fin_nat] at h
  exact toNumber_of_eqInt v n h

theorem set_eq_self_of_getElem? {α : Type} (l : List α) (i : Nat) (a : α)
    (h : l[i]? = some a) : l.set i a = l := by
  induction l generalizing i with
  | nil => rfl
  | cons b t ih =>
    cases i with
    | zero =>
      simp only [List.getElem?_cons_zero, Option.some.injEq] at h
      simp [h]
    | succ j =>
      simp only [List.getElem?_cons_succ] at h
      simp [ih j h]

theorem getProp_id_spread_of_no_id (v : JVal) (body : JObj)
    (h : (getProp body "id").isNone = true) :
    getProp (spread [("id", v)] body) "id" = some v := by
  have hnone : getProp body "id" = none := by
    cases hb : getProp body "id" with
    | none => rfl
    | some w => simp [hb] at h
  rw [getProp_spread_of_not_mem _ _ _ ((getProp_eq_none_iff body "id").mp hnone)]
  simp [getProp]

theorem handle_wellFormed (st : Store) (r : Request) (hr : wellFormed r = true)
    (ns : List Nat)
    (hids : ids st = ns.map (fun n : Nat => some (JVal.num (n : Int))))
    (hsorted : ns.Pairwise (· < ·))
    (hbound : ∀ n ∈ ns, 0 < n ∧ n < st.idCounter)
    (hpos : 0 < st.idCounter) :
    ∃ ns' : List Nat,
      ids (handle st r).1 = ns'.map (fun n : Nat => some (JVal.num (n : Int)))
        ∧ ns'.Pairwise (· < ·)
        ∧ (∀ n ∈ ns', 0 < n ∧ n < (handle st r).1.idCounter)
        ∧ 0 < (handle st r).1.idCounter := by
  cases r with
  | post body =>
    refine ⟨ns ++ [st.idCounter], ?_, ?_, ?_, ?_⟩
    · have hid := getProp_id_spread_of_no_id (.num st.idCounter) body hr
      have hids' : List.map (fun s => getProp s "id") st.students
          = ns.map (fun n : Nat => some (JVal.num (n : Int))) := hids
      simp [ids, handle, postStudents, hid, hids']
    · rw [List.pairwise_append]
      refine ⟨hsorted, by simp, ?_⟩
      intro a ha b hb
      simp only [List.mem_singleton] at hb
      subst hb
      exact (hbound a ha).2
    · intro n hn
      show 0 < n ∧ n < st.idCounter + 1
      simp only [List.mem_append, List.mem_singleton] at hn
      rcases hn with hn | hn
      · have := hbound n hn
        omega
      · omega
    · show 0 < st.idCounter + 1
      omega
  | getAll => exact ⟨ns, hids, hsorted, hbound, hpos⟩
  | getOne x =>
    have hst : (handle st (.getOne x)).1 = st := getStudent_store st x
    rw [hst]
    exact ⟨ns, hids, hsorted, hbound, hpos⟩
  | put x body =>
    have hh : handle st (.put x body) = putStudent st x body := rfl
    simp only [wellFormed, Bool.and_eq_true] at hr
    rcases putStudent_cases st x body with ⟨i, hi, h⟩ | ⟨_, h⟩ | ⟨e, _, h⟩
    · refine ⟨ns, ?_, hsorted, ?_, ?_⟩
      · obtain ⟨⟨s, hs, hmatch⟩, _⟩ := findIndex_spec _ _ _ hi
        have hsid : (ids st)[i]? = some (getProp s "id") := by
          simp [ids, hs]
        have hdec : isDecimalNumeral x = true := by
          have := hr.2
          simp only [isCanonicalNumeral, Bool.and_eq_true] at this
          exact this.1
        have hnsi : ∃ n : Nat, ns[i]? = some n ∧ getProp s "id" = some (.num (n : Int)) := by
          rw [hids, List.getElem?_map] at hsid
          cases hn : ns[i]? with
          | none => simp [hn] at hsid
          | some n =>
            refine ⟨n, rfl, ?_⟩
            simpa [hn] using hsid.symm
        obtain ⟨n, _, hn⟩ := hnsi
        have hm := matchesId_of_num x s n hn
        rw [hmatch, StringToNumber_of_isDecimalNumeral x hdec] at hm
        have hparse : parseInt x = .num (n : Int) := by
          rw [parseInt_of_isDecimalNumeral x hdec]
          exact toNumber_of_eqInt_fin_zero _ _ (by simpa using hm.symm)
        have hid := getProp_id_spread_of_no_id (parseInt x) body hr.1
        rw [hh, h]
        show List.map (fun s => getProp s "id")
            (st.students.set i (spread [("id", parseInt x)] body)) = _
        rw [List.map_set, hid, hparse, ← hn]
        have hself := set_eq_self_of_getElem? (ids st) i (getProp s "id") hsid
        rw [← hids]
        exact hself
      · rw [hh, h]
        exact hbound
      · rw [hh, h]
        exact hpos
    · rw [hh, h]
      exact ⟨ns, hids, hsorted, hbound, hpos⟩
    · rw [hh, h]
      exact ⟨ns, hids, hsorted, hbound, hpos⟩
  | delete x =>
    have hh : handle st (.delete x) = deleteStudent st x := rfl
    have hsub := deleteStudent_sublist st x
    have hsub' : (ids (deleteStudent st x).1).Sublist (ids st) :=
      hsub.map (fun s => getProp s "id")
    rw [hids] at hsub'
    obtain ⟨ns', hns', heq⟩ := List.sublist_map_iff.mp hsub'
    refine ⟨ns', ?_, List.Pairwise.sublist hns' hsorted, ?_, ?_⟩
    · rw [hh]
      exact heq
    · intro n hn
      rw [hh, deleteStudent_idCounter]
      exact hbound n (hns'.subset hn)
    · rw [hh, deleteStudent_idCounter]
      exact hpos

theorem run_wellFormed (rs : List Request) (st : Store)
    (hwf : ∀ r ∈ rs, wellFormed r = true) (ns : List Nat)
    (hids : ids st = ns.map (fun n : Nat => some (JVal.num (n : Int))))
    (hsorted : ns.Pairwise (· < ·))
    (hbound : ∀ n ∈ ns, 0 < n ∧ n < st.idCounter)
    (hpos : 0 < st.idCounter) :
    ∃ ns' : List Nat,
      ids (run st rs) = ns'.map (fun n : Nat => some (JVal.num (n : Int)))
        ∧ ns'.Pairwise (· < ·)
        ∧ (∀ n ∈ ns', 0 < n ∧ n < (run st rs).idCounter) := by
  induction rs generalizing st ns with
  | nil => exact ⟨ns, hids, hsorted, hbound⟩
  | cons r rs ih =>
    obtain ⟨ns1, h1, h2, h3, h4⟩ :=
      handle_wellFormed st r (hwf r (List.mem_cons_self _ _)) ns hids hsorted hbound hpos
    exact ih _ (fun r' hr' => hwf r' (List.mem_cons_of_mem _ hr')) ns1 h1 h2 h3 h4

/-- C16: when no create or update body of a request sequence has an `id` key
and every update identifier is a canonical decimal numeral, the state reached
from the initial store holds records whose ids are positive integers, strictly
increasing in list order, hence pairwise distinct, and all below `idCounter`. -/
theorem well_formed_requests_keep_ids_sorted (rs : List Request)
    (hwf : ∀ r ∈ rs, wellFormed r = true) :
    ∃ ns : List Nat,
      ids (run initialStore rs) = ns.map (fun n : Nat => some (JVal.num (n : Int)))
        ∧ ns.Pairwise (· < ·)
        ∧ (ids (run initialStore rs)).Nodup
        ∧ ∀ n ∈ ns, 0 < n ∧ n < (run initialStore rs).idCounter := by
  obtain ⟨ns, h1, h2, h3⟩ :=
    run_wellFormed rs initialStore hwf [] rfl (by simp) (by simp) (by decide)
  refine ⟨ns, h1, h2, ?_, h3⟩
  rw [h1]
  have hnodup : ns.Nodup := h2.imp (fun h => Nat.ne_of_lt h)
  refine hnodup.map ?_
  intro a b hab
  simp only [Option.some.injEq, JVal.num.injEq, Int.natCast_inj] at hab
  exact hab

/-- C16 on the sequence create, create, `PUT /students/2`, `DELETE /students/1`,
create with bodies that carry no `id`: the store ends with the ids 2 and 3 and
the counter at 4. -/
theorem well_formed_requests_keep_ids_sorted_witness :
    (∀ r ∈ [Request.post [("name", .str "A")], .post [("name", .str "B")],
          .put "2" [("name", .str "C")], .delete "1", .post [("name", .str "D")]],
        wellFormed r = true)
      ∧ ∃ ns : List Nat,
          ids (run initialStore
              [.post [("name", .str "A")], .post [("name", .str "B")],
                .put "2" [("name", .str "C")], .delete "1", .post [("name", .str "D")]])
            = ns.map (fun n : Nat => some (JVal.num (n : Int)))
          ∧ ns.Pairwise (· < ·)
          ∧ (ids (run initialStore
              [.post [("name", .str "A")], .post [("name", .str "B")],
                .put "2" [("name", .str "C")], .delete "1",
                .post [("name", .str "D")]])).Nodup
          ∧ ∀ n ∈ ns, 0 < n ∧ n < (run initialStore
              [.post [("name", .str "A")], .post [("name", .str "B")],
                .put "2" [("name", .str "C")], .delete "1",
                .post [("name", .str "D")]]).idCounter := by
  have hwf : ∀ r ∈ [Request.post [("name", .str "A")], .post [("name", .str "B")],
      .put "2" [("name", .str "C")], .delete "1", .post [("name", .str "D")]],
      wellFormed r = true := by
    intro r hr
    simp only [List.mem_cons, List.mem_singleton, List.not_mem_nil, or_false] at hr
    rcases hr with rfl | rfl | rfl | rfl | rfl <;> rfl
  exact ⟨hwf, well_formed_requests_keep_ids_sorted _ hwf⟩

/-! ## The identifier-matching rule -/

theorem numeralValue_zero_padded (k : Nat) (x : String) :
    numeralValue (String.mk (List.replicate k '0' ++ x.toList)) = numeralValue x := by
  unfold numeralValue
  show List.foldl _ 0 (List.replicate k '0' ++ x.toList) = _
  rw [List.foldl_append]
  congr 1
  induction k with
  | zero => rfl
  | succ j ih =>
    rw [List.replicate_succ, List.foldl_cons]
    exact ih

theorem isDecimalNumeral_zero_padded (k : Nat) (x : String) (h : isDecimalNumeral x = true) :
    isDecimalNumeral (String.mk (List.replicate k '0' ++ x.toList)) = true := by
  obtain ⟨⟨c, cs, hx⟩, hd⟩ := digits_of_isDecimalNumeral x h
  unfold isDecimalNumeral
  simp only [Bool.and_eq_true, Bool.not_eq_true', List.all_eq_true, decide_eq_true_eq]
  constructor
  · show (List.replicate k '0' ++ x.toList).isEmpty = false
    rw [hx]
    cases k <;> rfl
  · intro c' hc'
    have hc'' : c' ∈ List.replicate k '0' ++ x.toList := hc'
    rcases List.mem_append.mp hc'' with h0 | hx'
    · have := (List.mem_replicate.mp h0).2
      subst this
      decide
    · exact hd c' hx'

/-- The exact value `m * 10 ^ e` of a literal, compared with an integer. -/
theorem exact_value_iff (m e n : Int) :
    (m : ℚ) * (10 : ℚ) ^ e = (n : ℚ)
      ↔ (if 0 ≤ e then m * 10 ^ e.toNat = n else m = n * 10 ^ (-e).toNat) := by
  by_cases he : 0 ≤ e
  · obtain ⟨k, rfl⟩ := Int.eq_ofNat_of_zero_le he
    simp only [he, if_true, Int.toNat_ofNat, zpow_natCast]
    constructor
    · intro h
      exact_mod_cast h
    · intro h
      exact_mod_cast h
  · have hneg : 0 ≤ -e := by omega
    obtain ⟨k, hk⟩ := Int.eq_ofNat_of_zero_le hneg
    have hek : e = -(k : Int) := by omega
    subst hek
    have hten : ((10 : ℚ) ^ k) ≠ 0 := pow_ne_zero _ (by norm_num)
    simp only [he, if_false, neg_neg, Int.toNat_ofNat, zpow_neg, zpow_natCast]
    rw [mul_inv_eq_iff_eq_mul₀ hten]
    constructor
    · intro h
      exact_mod_cast h
    · intro h
      exact_mod_cast h

/-- A literal whose exact value is an integer of magnitude below `2 ^ 53`
compares equal to that integer: rounding does not move it. -/
theorem eqInt_of_exact_value (m e n : Int) (hn : n.natAbs < 2 ^ 53)
    (hval : (m : ℚ) * (10 : ℚ) ^ e = (n : ℚ)) :
    (StrNum.fin m e).eqInt n = true := by
  have hex := (exact_value_iff m e n).mp hval
  have hsigned : (if decide (n < 0) = true then -(n.natAbs : Int) else (n.natAbs : Int)) = n := by
    by_cases h0 : n < 0
    · simp only [h0, decide_True, if_true]
      omega
    · simp only [h0, decide_False, Bool.false_eq_true, if_false]
      omega
  unfold StrNum.eqInt StrNum.toDouble
  by_cases he : 0 ≤ e
  · simp only [he, if_true] at hex ⊢
    have hpos : (0 : Int) < 10 ^ e.toNat := by positivity
    have habs : m.natAbs * 10 ^ e.toNat = n.natAbs * 1 := by
      rw [← hex, Int.natAbs_mul, Int.natAbs_pow]
      simp
    have hsign : decide (m < 0) = decide (n < 0) := by
      have : m < 0 ↔ n < 0 := by
        rw [← hex]
        constructor
        · intro hm
          exact Int.mul_neg_of_neg_of_pos hm hpos
        · intro hmn
          by_contra hm
          have : 0 ≤ m * 10 ^ e.toNat := Int.mul_nonneg (by omega) (le_of_lt hpos)
          omega
      exact decide_eq_decide.mpr this
    rw [habs, hsign]
    exact (roundToDouble_eqInt_exact _ n.natAbs 1 n (by decide) hn).mpr hsigned
  · simp only [he, if_false] at hex ⊢
    have hpos : (0 : Int) < 10 ^ (-e).toNat := by positivity
    have habs : m.natAbs = n.natAbs * 10 ^ (-e).toNat := by
      rw [hex, Int.natAbs_mul, Int.natAbs_pow]
      simp
    have hsign : decide (m < 0) = decide (n < 0) := by
      have : m < 0 ↔ n < 0 := by
        rw [hex]
        constructor
        · intro hm
          by_contra hn0
          have : 0 ≤ n * 10 ^ (-e).toNat := Int.mul_nonneg (by omega) (le_of_lt hpos)
          omega
        · intro hn0
          exact Int.mul_neg_of_neg_of_pos hn0 hpos
      exact decide_eq_decide.mpr this
    rw [habs, hsign]
    exact (roundToDouble_eqInt_exact _ n.natAbs _ n (by positivity) hn).mpr hsigned

theorem dropWhile_append_singleton (p : Char → Bool) (l : List Char) (c : Char)
    (hc : p c = false) : (l ++ [c]).dropWhile p = l.dropWhile p ++ [c] := by
  induction l with
  | nil => simp [List.dropWhile, hc]
  | cons a t ih =>
    by_cases ha : p a = true
    · simp [List.dropWhile, ha, ih]
    · simp [List.dropWhile, ha]

theorem trim_cons_of_not_whiteSpace (c : Char) (rest : List Char)
    (hc : isStrWhiteSpace c = false) :
    ∃ t, trimEnd (trimStart (c :: rest)) = c :: t := by
  have hstart : trimStart (c :: rest) = c :: rest := by
    simp [trimStart, List.dropWhile, hc]
  rw [hstart]
  refine ⟨(rest.reverse.dropWhile isStrWhiteSpace).reverse, ?_⟩
  unfold trimEnd
  rw [List.reverse_cons, dropWhile_append_singleton _ _ _ hc, List.reverse_append]
  rfl

theorem radixDigit_ten_of_not_digit (c : Char) (h : ¬ (48 ≤ c.toNat ∧ c.toNat ≤ 57)) :
    radixDigit 10 c = none := by
  unfold radixDigit
  simp only [h, if_false]
  by_cases h1 : 97 ≤ c.toNat ∧ c.toNat ≤ 122
  · have : ¬ (c.toNat - 87 < 10) := by omega
    simp [h1, this]
  · by_cases h2 : 65 ≤ c.toNat ∧ c.toNat ≤ 90
    · have : ¬ (c.toNat - 55 < 10) := by omega
      simp [h1, h2, this]
    · simp [h1, h2]

/-- An identifier that does not start like a number converts to `NaN`, or to
`Infinity` when it spells that word. -/
theorem StringToNumber_of_startsNonNumeric (x : String) (h : startsNonNumeric x = true) :
    StringToNumber x = .nan ∨ StringToNumber x = .inf false := by
  unfold startsNonNumeric at h
  cases hx : x.toList with
  | nil =>
    rw [hx] at h
    simp at h
  | cons c rest =>
    rw [hx] at h
    simp only [Bool.not_eq_true', Bool.or_eq_false_iff, decide_eq_false_iff_not] at h
    obtain ⟨⟨⟨⟨hws, hdig⟩, hplus⟩, hminus⟩, hdot⟩ := h
    obtain ⟨t, ht⟩ := trim_cons_of_not_whiteSpace c rest hws
    have hnot0 : c ≠ '0' := by
      intro hc
      apply hdig
      rw [hc]
      decide
    unfold StringToNumber
    rw [hx, ht]
    split
    · rename_i heq
      simp at heq
    · rename_i heq
      exact absurd (List.cons.inj heq).1 hnot0
    · rename_i heq
      exact absurd (List.cons.inj heq).1 hnot0
    · rename_i heq
      exact absurd (List.cons.inj heq).1 hnot0
    · rename_i heq
      exact absurd (List.cons.inj heq).1 hnot0
    · rename_i heq
      exact absurd (List.cons.inj heq).1 hnot0
    · rename_i heq
      exact absurd (List.cons.inj heq).1 hnot0
    · rename_i heq
      exact absurd (List.cons.inj heq).1 hplus
    · rename_i heq
      exact absurd (List.cons.inj heq).1 hminus
    · unfold parseUnsignedDecimal
      split
      · exact Or.inr rfl
      · left
        have hspan : spanDigits 10 (c :: t) = ([], c :: t) := by
          simp [spanDigits, radixDigit_ten_of_not_digit c hdig]
        simp only [hspan]
        split
        · rename_i heq
          exact absurd (List.cons.inj heq).1 hdot
        · simp

theorem eqInt_of_nan_or_inf (s : StrNum) (n : Int) (h : s = .nan ∨ s = .inf false) :
    s.eqInt n = false := by
  rcases h with rfl | rfl <;> rfl

/-- C13 fails as stated: in the store `[{id: 1, name: "A"}]`, reached by one
`POST {name: "A"}`, the identifier `1.00000000000000000001` reads as
`100000000000000000001 * 10 ^ (-20)`, which is not the number 1, yet the
comparison rounds it to the double 1: the identifier matches the record and
`GET /students/1.00000000000000000001` answers 200 with it. -/
theorem rounded_identifier_matches_other_value :
    run initialStore [.post [("name", .str "A")]]
        = { students := [[("id", .num 1), ("name", .str "A")]], idCounter := 2 }
      ∧ StringToNumber "1.00000000000000000001" = .fin 100000000000000000001 (-20)
      ∧ ((100000000000000000001 : Int) : ℚ) * (10 : ℚ) ^ (-20 : Int) ≠ ((1 : Int) : ℚ)
      ∧ matchesId "1.00000000000000000001" [("id", .num 1), ("name", .str "A")] = .ok true
      ∧ getStudent { students := [[("id", .num 1), ("name", .str "A")]], idCounter := 2 }
          "1.00000000000000000001"
        = ({ students := [[("id", .num 1), ("name", .str "A")]], idCounter := 2 },
            .json 200 (.obj [("id", .num 1), ("name", .str "A")])) := by
  refine ⟨rfl, rfl, ?_, rfl, rfl⟩
  norm_num

/-- C13, amended: in a store whose records have integer ids the comparison
never throws, and for a record with id `n`: an identifier whose exact value
`m * 10 ^ e` is `n` matches it when `n` is of magnitude below `2 ^ 53`; a
string of decimal digits of value below `2 ^ 53`, zero-padded or not, matches
it exactly when that value is `n`; an identifier that does not start like a
number, or that the conversion reads as `NaN`, matches no record, so that
get-one and update answer 404 `Not Found` and leave the store unchanged. -/
theorem identifier_matching_rule (st : Store) (x : String)
    (hint : ∀ s ∈ st.students, ∃ n : Int, getProp s "id" = some (.num n)) :
    (∀ s ∈ st.students, matchesId x s = .ok true ∨ matchesId x s = .ok false)
      ∧ (∀ s ∈ st.students, ∀ n : Int, getProp s "id" = some (.num n) →
          n.natAbs < 2 ^ 53 → ∀ m e : Int, StringToNumber x = .fin m e →
            (m : ℚ) * (10 : ℚ) ^ e = (n : ℚ) → matchesId x s = .ok true)
      ∧ (isDecimalNumeral x = true → numeralValue x < 2 ^ 53 →
          ∀ k : Nat, ∀ s ∈ st.students, ∀ n : Int, getProp s "id" = some (.num n) →
            (matchesId (String.mk (List.replicate k '0' ++ x.toList)) s = .ok true
              ↔ (numeralValue x : Int) = n))
      ∧ (startsNonNumeric x = true ∨ StringToNumber x = .nan →
          (∀ s ∈ st.students, matchesId x s = .ok false)
            ∧ getStudent st x = (st, .send 404 "Not Found")
            ∧ ∀ body, putStudent st x body = (st, .send 404 "Not Found")) := by
  refine ⟨?_, ?_, ?_, ?_⟩
  · intro s hs
    obtain ⟨n, hn⟩ := hint s hs
    rw [matchesId_of_num x s n hn]
    cases (StringToNumber x).eqInt n
    · exact Or.inr rfl
    · exact Or.inl rfl
  · intro s _ n hn hsmall m e hx hval
    rw [matchesId_of_num x s n hn, hx, eqInt_of_exact_value m e n hsmall hval]
  · intro hdec hsmall k s _ n hn
    have hpad := isDecimalNumeral_zero_padded k x hdec
    rw [matchesId_of_num _ s n hn, StringToNumber_of_isDecimalNumeral _ hpad,
      numeralValue_zero_padded]
    constructor
    · intro h
      exact (eqInt_fin_zero_of_lt _ _ hsmall).mp (by simpa using h)
    · intro h
      rw [(eqInt_fin_zero_of_lt _ _ hsmall).mpr h]
  · intro hnon
    have hconv : StringToNumber x = .nan ∨ StringToNumber x = .inf false := by
      rcases hnon with h | h
      · exact StringToNumber_of_startsNonNumeric x h
      · exact Or.inl h
    have hno : ∀ s ∈ st.students, matchesId x s = .ok false := by
      intro s hs
      obtain ⟨n, hn⟩ := hint s hs
      rw [matchesId_of_num x s n hn, eqInt_of_nan_or_inf _ n hconv]
    refine ⟨hno, ?_, ?_⟩
    · have := find_none_of_all_false _ _ hno
      simp [getStudent, this]
    · intro body
      have := findIndex_none_of_all_false _ _ hno
      simp [putStudent, this]

/-- C13 at the store `[{id: 7, name: "A"}]`: the identifiers `007` and `70e-1`
match the record, the numeral `8` does not, and `GET /students/abc` and
`PUT /students/abc` answer 404 `Not Found`. -/
theorem identifier_matching_rule_witness :
    (∀ s ∈ [[("id", JVal.num 7), ("name", JVal.str "A")]],
        ∃ n : Int, getProp s "id" = some (.num n))
      ∧ matchesId "007" [("id", .num 7), ("name", .str "A")] = .ok true
      ∧ matchesId "70e-1" [("id", .num 7), ("name", .str "A")] = .ok true
      ∧ matchesId "8" [("id", .num 7), ("name", .str "A")] ≠ .ok true
      ∧ getStudent { students := [[("id", .num 7), ("name", .str "A")]], idCounter := 8 } "abc"
          = ({ students := [[("id", .num 7), ("name", .str "A")]], idCounter := 8 },
              .send 404 "Not Found")
      ∧ putStudent { students := [[("id", .num 7), ("name", .str "A")]], idCounter := 8 } "abc"
          [("name", .str "B")]
          = ({ students := [[("id", .num 7), ("name", .str "A")]], idCounter := 8 },
              .send 404 "Not Found") := by
  have hint : ∀ s ∈ [[("id", JVal.num 7), ("name", JVal.str "A")]],
      ∃ n : Int, getProp s "id" = some (.num n) := by
    intro s hs
    simp only [List.mem_singleton] at hs
    subst hs
    exact ⟨7, rfl⟩
  have hmem : [("id", JVal.num 7), ("name", JVal.str "A")]
      ∈ [[("id", JVal.num 7), ("name", JVal.str "A")]] := List.mem_singleton.mpr rfl
  have hpad := ((identifier_matching_rule
      { students := [[("id", .num 7), ("name", .str "A")]], idCounter := 8 } "7" hint).2.2.1
      rfl (by decide) 2 _ hmem 7 rfl).mpr rfl
  have hexp := (identifier_matching_rule
      { students := [[("id", .num 7), ("name", .str "A")]], idCounter := 8 } "70e-1" hint).2.1
      _ hmem 7 rfl (by decide) 70 (-1) rfl (by norm_num)
  have hother : matchesId "8" [("id", .num 7), ("name", .str "A")] ≠ .ok true := by
    intro h
    have := ((identifier_matching_rule
      { students := [[("id", .num 7), ("name", .str "A")]], idCounter := 8 } "8" hint).2.2.1
      rfl (by decide) 0 _ hmem 7 rfl).mp h
    exact absurd this (by decide)
  have hnan := (identifier_matching_rule
      { students := [[("id", .num 7), ("name", .str "A")]], idCounter := 8 } "abc" hint).2.2.2
      (Or.inl rfl)
  exact ⟨hint, hpad, hexp, hother, hnan.2.1, hnan.2.2 _⟩

end StudentApi
